import Mathlib

/-!
Verification of the Roblox standard-library generator
(`src/selene/src/roblox/generate_std.rs`).

The Rust source is shallowly embedded below.  The API-dump data model and
the descriptor data model (`selene_lib::standard_library`, `super::api`)
are declared in this repository outside the packaged sources, so their
shapes are modelled from the specification; every function of
`generate_std.rs` itself is translated directly from the source.  The
mutable `BTreeMap` maps of the source are modelled as association lists
with overwrite-on-insert semantics, and the recursive superclass walk is
modelled with an explicit fuel parameter (the walk can diverge on cyclic
superclass chains, which the data model rules out for well-formed dumps).
-/

namespace SeleneGen

/-- Modelled from the spec: the security descriptor of a `Property` member.
The dump carries read and write security contexts; the generator only ever
compares a security value with the default value, so the model keeps the
two contexts as strings with a default of "None". -/
structure ApiPropertySecurity where
  read : String := "None"
  write : String := "None"
deriving DecidableEq, Repr

/-- Modelled from the spec: the default (public) security value. -/
def ApiPropertySecurity.default : ApiPropertySecurity := {}

/-- Modelled from the spec: a data-type descriptor exposing the
`has_custom_methods` predicate distinguishing data types that carry
methods from pure scalars. -/
structure ApiDataType where
  has_custom_methods : Bool
deriving DecidableEq, Repr

/-- Modelled from the spec: the value type of a property; the generator
distinguishes the `Class` and `DataType` variants and collapses everything
else to a plain value type. -/
inductive ApiValueType where
  | Class (name : String)
  | DataType (value : ApiDataType)
  | Other
deriving DecidableEq, Repr

/-- Modelled from the spec: the tagged union of API-dump member variants. -/
inductive ApiMember where
  | Callback (name : String) (tags : Option (List String))
  | Event (name : String) (tags : Option (List String))
  | Function (name : String) (tags : Option (List String)) (parameters : List Unit)
  | Property (name : String) (tags : Option (List String))
      (security : ApiPropertySecurity) (value_type : ApiValueType)
  | Unknown
deriving DecidableEq, Repr

/-- Modelled from the spec: a class of the API dump. -/
structure ApiClass where
  name : String
  superclass : String
  tags : List String
  members : List ApiMember
deriving DecidableEq, Repr

/-- Modelled from the spec: one item of an enum of the API dump. -/
structure ApiEnumItem where
  name : String
deriving DecidableEq, Repr

/-- Modelled from the spec: one enum of the API dump. -/
structure ApiEnum where
  name : String
  items : List ApiEnumItem
deriving DecidableEq, Repr

/-- Modelled from the spec: the API dump, with its ordered class and enum
collections. -/
structure ApiDump where
  classes : List ApiClass
  enums : List ApiEnum
deriving DecidableEq, Repr

/-- Modelled from the spec: writability of a property field. -/
inductive PropertyWritability where
  | ReadOnly
  | OverrideFields
deriving DecidableEq, Repr

/-- Modelled from the spec: the type of one function argument. -/
inductive ArgumentType where
  | Any
  | Constant (values : List String)
deriving DecidableEq, Repr

/-- Modelled from the spec: whether an argument is required. -/
inductive Required where
  | Required (default : Option String)
  | NotRequired
deriving DecidableEq, Repr

/-- Modelled from the spec: how a function observes an argument. -/
inductive Observes where
  | ReadWrite
deriving DecidableEq, Repr

/-- Modelled from the spec: one function argument descriptor. -/
structure Argument where
  argument_type : ArgumentType
  required : Required
  observes : Observes
deriving DecidableEq, Repr

/-- Modelled from the spec: the behavior record of a function field. -/
structure FunctionBehavior where
  arguments : List Argument
  method : Bool
  must_use : Bool
deriving DecidableEq, Repr

/-- Modelled from the spec: the kind of a descriptor field. -/
inductive FieldKind where
  | Struct (name : String)
  | Property (writability : PropertyWritability)
  | Function (behavior : FunctionBehavior)
  | Any
deriving DecidableEq, Repr

/-- Modelled from the spec: the deprecation record of a field. -/
structure Deprecated where
  message : String
  replace : List String
deriving DecidableEq, Repr

/-- Modelled from the spec: a descriptor field, a kind plus an optional
deprecation record. -/
structure Field where
  field_kind : FieldKind
  deprecated : Option Deprecated
deriving DecidableEq, Repr

/-- Modelled from the spec: `Field::from_field_kind` builds a field with no
deprecation record. -/
def Field.from_field_kind (k : FieldKind) : Field :=
  { field_kind := k, deprecated := none }

/-- Modelled from the spec: one entry of the flat class index. -/
structure RobloxClass where
  superclass : String
  events : List String
  properties : List String
deriving DecidableEq, Repr

/-- Lookup in an association list (the model of `BTreeMap` access). -/
def lookupA {α : Type} (k : String) : List (String × α) → Option α
  | [] => none
  | (k2, v) :: rest => if k2 = k then some v else lookupA k rest

/-- Insert into an association list, overwriting an existing binding of the
same key (the model of `BTreeMap::insert`). -/
def insertA {α : Type} (k : String) (v : α) : List (String × α) → List (String × α)
  | [] => [(k, v)]
  | (k2, v2) :: rest => if k2 = k then (k, v) :: rest else (k2, v2) :: insertA k v rest

/-- Key membership in an association list (the model of
`BTreeMap::contains_key`). -/
def containsKey {α : Type} (k : String) (m : List (String × α)) : Bool :=
  (lookupA k m).isSome

/-- A member table of one struct. -/
abbrev Stbl := List (String × Field)

/-- The struct table of the descriptor. -/
abbrev Structs := List (String × Stbl)

/-- Modelled from the spec: the descriptor under construction
(`selene_lib::standard_library::StandardLibrary`), restricted to the
fields the generator reads or writes. -/
structure StandardLibrary where
  base : Option String
  globals : List (String × Field)
  structs : Structs
  roblox_classes : List (String × RobloxClass)
  last_updated : Option Int
  last_selene_version : Option String
deriving DecidableEq, Repr

/-- Errors of the embedded generator: `fuel` marks exhaustion of the fuel
that models the unbounded recursion of the source, `panicked` models a
Rust panic. -/
inductive GenError where
  | fuel
  | panicked (msg : String)
deriving DecidableEq, Repr

/-- The tags of a member (each variant stores an optional tag list;
`Unknown` has none). -/
def member_tags : ApiMember → Option (List String)
  | .Callback _ tags => tags
  | .Event _ tags => tags
  | .Function _ tags _ => tags
  | .Property _ tags _ _ => tags
  | .Unknown => none

/-- The deprecation step of `write_class_members`: when the tag list of the
member contains "Deprecated", stamp the fixed deprecation record onto the
field. -/
def apply_deprecated (tags : Option (List String)) (f : Field) : Field :=
  if (tags.getD []).contains "Deprecated" then
    { f with deprecated := some { message := "this property is deprecated.", replace := [] } }
  else
    f

/-- The per-member classification of `write_class_members`, without the
deprecation step and without the struct-synthesis side effect: the name of
the member together with the field it emits, or `none` when the member
emits nothing (a property with non-default security, or an `Unknown`
member, which the non-test build skips). -/
def classify_member : ApiMember → Option (String × Option Field)
  | .Callback name _ =>
      some (name, some (Field.from_field_kind (.Property .OverrideFields)))
  | .Event name _ =>
      some (name, some (Field.from_field_kind (.Struct "Event")))
  | .Function name _ parameters =>
      some (name, some (Field.from_field_kind (.Function
        { arguments := parameters.map (fun _ =>
            { argument_type := .Any, required := .NotRequired, observes := .ReadWrite })
          method := true
          must_use := false })))
  | .Property name tags security value_type =>
      some (name,
        if security = ApiPropertySecurity.default then
          let ts := tags.getD []
          let default_field := some (Field.from_field_kind (.Property
            (if ts.contains "ReadOnly" then .ReadOnly else .OverrideFields)))
          match value_type with
          | .Class n => some (Field.from_field_kind (.Struct n))
          | .DataType v => if v.has_custom_methods then
              some (Field.from_field_kind .Any)
            else default_field
          | .Other => default_field
        else none)
  | .Unknown => none

/-- The full per-member emission: name and field after the deprecation
step, or `none` when the member emits no field. -/
def member_field (m : ApiMember) : Option (String × Field) :=
  match classify_member m with
  | none => none
  | some (name, f) =>
    match f with
    | none => none
    | some f => some (name, apply_deprecated (member_tags m) f)

/-- The class name whose struct `write_class_members` synthesizes for this
member: the value-type class of a property with default security. -/
def member_class_ref : ApiMember → Option String
  | .Property _ _ security (.Class n) =>
      if security = ApiPropertySecurity.default then some n else none
  | _ => none

/-- The fresh member table of `write_class_struct`: seeded with the
wildcard entry. -/
def table0 : Stbl :=
  [("*", Field.from_field_kind (.Struct "Instance"))]

mutual

/-- `RobloxGenerator::write_class_struct`: return immediately when the
class already has a struct, otherwise reserve the key with an empty table,
walk the members into a fresh table seeded with the wildcard entry, and
replace the reserved entry with the completed table. -/
def write_class_struct (test : Bool) (api : ApiDump) (s : Structs) (class_name : String) :
    Nat → Except GenError Structs
  | 0 => .error .fuel
  | fuel + 1 =>
    if containsKey class_name s then .ok s
    else
      match write_class_members test api (insertA class_name [] s) table0 class_name fuel with
      | .error e => .error e
      | .ok (s2, table) => .ok (insertA class_name table s2)

/-- `RobloxGenerator::write_class_members`: find the class (panicking like
`unwrap` when it is absent), walk its member list, then recurse into the
superclass unless it is the root sentinel. -/
def write_class_members (test : Bool) (api : ApiDump) (s : Structs) (table : Stbl)
    (class_name : String) : Nat → Except GenError (Structs × Stbl)
  | 0 => .error .fuel
  | fuel + 1 =>
    match api.classes.find? (fun c => c.name == class_name) with
    | none => .error (.panicked "called Option::unwrap() on a None value")
    | some cl =>
      match members_loop test api s table class_name cl.members fuel with
      | .error e => .error e
      | .ok (s2, t2) =>
        if cl.superclass = "<<<ROOT>>>" then .ok (s2, t2)
        else write_class_members test api s2 t2 cl.superclass fuel

/-- The member loop of `write_class_members`: classify each member,
synthesize the struct of a class-typed property value, panic on an
`Unknown` member under the test configuration and skip it otherwise, and
insert the emitted field (after the deprecation step) into the table. -/
def members_loop (test : Bool) (api : ApiDump) (s : Structs) (table : Stbl)
    (class_name : String) : List ApiMember → Nat → Except GenError (Structs × Stbl)
  | _, 0 => .error .fuel
  | [], _ + 1 => .ok (s, table)
  | m :: rest, fuel + 1 =>
    match m with
    | .Unknown =>
      if test then
        .error (.panicked ("unknown property found in Roblox API dump for " ++ class_name))
      else
        members_loop test api s table class_name rest fuel
    | _ =>
      match (match member_class_ref m with
             | some n => write_class_struct test api s n fuel
             | none => .ok s) with
      | .error e => .error e
      | .ok s2 =>
        match member_field m with
        | some (name, f) => members_loop test api s2 (insertA name f table) class_name rest fuel
        | none => members_loop test api s2 table class_name rest fuel

end

/-- `RobloxGenerator::write_class`: synthesize the struct of the class and
bind the global name to it. -/
def write_class (test : Bool) (api : ApiDump) (std : StandardLibrary)
    (global_name class_name : String) (fuel : Nat) : Except GenError StandardLibrary :=
  match write_class_struct test api std.structs class_name fuel with
  | .error e => .error e
  | .ok s2 =>
    .ok { std with
          structs := s2
          globals := insertA global_name
            (Field.from_field_kind (.Struct class_name)) std.globals }

/-- The `GetEnumItems` pseudo-global key of one enum. -/
def enum_fn_key (ename : String) : String :=
  "Enum." ++ ename ++ ".GetEnumItems"

/-- The pseudo-global key of one enum item. -/
def enum_item_key (ename iname : String) : String :=
  "Enum." ++ ename ++ "." ++ iname

/-- The field bound to every `GetEnumItems` pseudo-global. -/
def enum_fn_field : Field :=
  Field.from_field_kind (.Function { arguments := [], method := true, must_use := true })

/-- The field bound to every enum-item pseudo-global. -/
def enum_item_field : Field :=
  Field.from_field_kind (.Struct "EnumItem")

/-- The item loop of `write_enums`: bind each item of the enum. -/
def write_enum_items (ename : String) (items : List ApiEnumItem)
    (globals : List (String × Field)) : List (String × Field) :=
  match items with
  | [] => globals
  | item :: rest =>
    write_enum_items ename rest (insertA (enum_item_key ename item.name) enum_item_field globals)

/-- The enum loop of `write_enums`: for each enum bind the `GetEnumItems`
function global and then the per-item globals. -/
def write_enums_go (enums : List ApiEnum) (globals : List (String × Field)) :
    List (String × Field) :=
  match enums with
  | [] => globals
  | e :: rest =>
    write_enums_go rest (write_enum_items e.name e.items
      (insertA (enum_fn_key e.name) enum_fn_field globals))

/-- `RobloxGenerator::write_enums`. -/
def write_enums (api : ApiDump) (std : StandardLibrary) : StandardLibrary :=
  { std with globals := write_enums_go api.enums std.globals }

/-- The creatable-class name list of `write_instance_new`: every class
whose tags do not contain "NotCreatable", in dump order. -/
def instance_names (api : ApiDump) : List String :=
  api.classes.filterMap (fun cl =>
    if !(cl.tags.contains "NotCreatable") then some cl.name else none)

/-- The function field `write_instance_new` binds to `Instance.new`. -/
def instance_new_field (api : ApiDump) : Field :=
  Field.from_field_kind (.Function
    { arguments := [{ argument_type := .Constant (instance_names api)
                      required := .Required none
                      observes := .ReadWrite }]
      method := false
      must_use := true })

/-- `RobloxGenerator::write_instance_new`. -/
def write_instance_new (api : ApiDump) (std : StandardLibrary) : StandardLibrary :=
  { std with globals := insertA "Instance.new" (instance_new_field api) std.globals }

/-- The service-class name list of `write_get_service`: every class whose
tags contain "Service", in dump order. -/
def service_names (api : ApiDump) : List String :=
  api.classes.filterMap (fun cl =>
    if cl.tags.contains "Service" then some cl.name else none)

/-- The function field `write_get_service` stores under `GetService`. -/
def get_service_field (api : ApiDump) : Field :=
  Field.from_field_kind (.Function
    { arguments := [{ argument_type := .Constant (service_names api)
                      required := .Required none
                      observes := .ReadWrite }]
      method := true
      must_use := true })

/-- `RobloxGenerator::write_get_service`: look up the `DataModel` struct
and its existing `GetService` entry (panicking like the two `unwrap`s when
either is absent) and overwrite the entry. -/
def write_get_service (api : ApiDump) (std : StandardLibrary) :
    Except GenError StandardLibrary :=
  match lookupA "DataModel" std.structs with
  | none => .error (.panicked "called Option::unwrap() on a None value")
  | some dm =>
    match lookupA "GetService" dm with
    | none => .error (.panicked "called Option::unwrap() on a None value")
    | some _ =>
      .ok { std with structs :=
              insertA "DataModel" (insertA "GetService" (get_service_field api) dm) std.structs }

/-- The event-name list of one class, in member order. -/
def class_events (cl : ApiClass) : List String :=
  cl.members.filterMap (fun m =>
    match m with
    | .Event n _ => some n
    | _ => none)

/-- The property-name list of one class, in member order, kept regardless
of security or tags. -/
def class_properties (cl : ApiClass) : List String :=
  cl.members.filterMap (fun m =>
    match m with
    | .Property n _ _ _ => some n
    | _ => none)

/-- The class loop of `write_roblox_classes`. -/
def write_roblox_classes_go (classes : List ApiClass)
    (m : List (String × RobloxClass)) : List (String × RobloxClass) :=
  match classes with
  | [] => m
  | cl :: rest =>
    write_roblox_classes_go rest
      (insertA cl.name
        { superclass := cl.superclass
          events := class_events cl
          properties := class_properties cl } m)

/-- `RobloxGenerator::write_roblox_classes`. -/
def write_roblox_classes (api : ApiDump) (std : StandardLibrary) : StandardLibrary :=
  { std with roblox_classes := write_roblox_classes_go api.classes std.roblox_classes }

/-- The pipeline of `start_generation` between the fetch and the output
framing: the four well-known globals, the enums, the two constructor
overwrites and the class index, applied in source order.  The baseline
descriptor (`StandardLibrary::roblox_base`, outside the packaged sources)
is a parameter. -/
def pipeline_core (test : Bool) (base_std : StandardLibrary) (api : ApiDump) (fuel : Nat) :
    Except GenError StandardLibrary :=
  match write_class test api base_std "game" "DataModel" fuel with
  | .error e => .error e
  | .ok std1 =>
  match write_class test api std1 "plugin" "Plugin" fuel with
  | .error e => .error e
  | .ok std2 =>
  match write_class test api std2 "script" "Script" fuel with
  | .error e => .error e
  | .ok std3 =>
  match write_class test api std3 "workspace" "Workspace" fuel with
  | .error e => .error e
  | .ok std4 =>
    match write_get_service api (write_instance_new api (write_enums api std4)) with
    | .error e => .error e
    | .ok std7 => .ok (write_roblox_classes api std7)

/-- Lexicographic comparison of character lists by code point, kept
executable down to the kernel. -/
def le_chars : List Char → List Char → Bool
  | [], _ => true
  | _ :: _, [] => false
  | a :: as, b :: bs =>
    if a.toNat < b.toNat then true
    else if b.toNat < a.toNat then false
    else le_chars as bs

/-- Lexicographic string comparison used by the sorted-key emission. -/
def str_le (a b : String) : Bool :=
  le_chars a.data b.data

/-- Insert a key into a sorted key list. -/
def insert_sorted (k : String) : List String → List String
  | [] => [k]
  | x :: rest => if str_le k x then k :: x :: rest else x :: insert_sorted k rest

/-- Sort a key list (the sorted-key emission order of the spec). -/
def sort_keys (l : List String) : List String :=
  l.foldr insert_sorted []

/-- Render an optional value. -/
def opt_text {α : Type} (f : α → String) : Option α → String
  | none => "null"
  | some a => f a

/-- Render a string list. -/
def list_text (l : List String) : String :=
  "[" ++ String.intercalate ", " l ++ "]"

/-- Render a writability value. -/
def writability_text : PropertyWritability → String
  | .ReadOnly => "read-only"
  | .OverrideFields => "override-fields"

/-- Render one argument. -/
def argument_text (a : Argument) : String :=
  (match a.argument_type with
   | .Any => "any"
   | .Constant values => "constant " ++ list_text values)
  ++ (match a.required with
      | .Required _ => " required"
      | .NotRequired => " not-required")

/-- Render a field kind. -/
def field_kind_text : FieldKind → String
  | .Struct name => "struct " ++ name
  | .Property w => "property " ++ writability_text w
  | .Function b =>
    "function (" ++ String.intercalate "; " (b.arguments.map argument_text) ++ ")"
      ++ (if b.method then " method" else "")
      ++ (if b.must_use then " must-use" else "")
  | .Any => "any"

/-- Render a field. -/
def field_text (f : Field) : String :=
  field_kind_text f.field_kind
    ++ (match f.deprecated with
        | none => ""
        | some d => " deprecated " ++ d.message ++ " " ++ list_text d.replace)

/-- Render the entries of a string-keyed mapping in sorted-key order, one
line per entry. -/
def render_entries {α : Type} (f : α → String) (m : List (String × α)) : List String :=
  (sort_keys (m.map Prod.fst)).map (fun k => "  " ++ k ++ ": " ++ opt_text f (lookupA k m))

/-- Render one struct as a single line. -/
def struct_text (t : Stbl) : String :=
  String.intercalate "; "
    ((sort_keys (t.map Prod.fst)).map (fun k => k ++ ": " ++ opt_text field_text (lookupA k t)))

/-- Render one class-index entry. -/
def roblox_class_text (rc : RobloxClass) : String :=
  "superclass " ++ rc.superclass ++ " events " ++ list_text rc.events
    ++ " properties " ++ list_text rc.properties

/-- Modelled from the spec: the YAML serialization of the descriptor
(`serde_yaml`, an external collaborator), rendered one line per scalar
field and per mapping entry, with mapping keys in sorted order.  The exact
textual shape is irrelevant to the claims; what matters is that the
rendering is a deterministic function of the descriptor and that it
includes the `last_updated` field. -/
def yaml_pre (std : StandardLibrary) : List String :=
  ("base: " ++ opt_text id std.base)
    :: ("globals:" :: render_entries field_text std.globals)
    ++ ["last_selene_version: " ++ opt_text id std.last_selene_version]

/-- The tail of the YAML rendering, after the `last_updated` line. -/
def yaml_post (std : StandardLibrary) : List String :=
  ("roblox_classes:" :: render_entries roblox_class_text std.roblox_classes)
    ++ ("structs:" :: render_entries struct_text std.structs)

/-- The full YAML rendering of the descriptor. -/
def yaml_lines (std : StandardLibrary) : List String :=
  yaml_pre std ++ ("last_updated: " ++ opt_text toString std.last_updated) :: yaml_post std

/-- The generated-header comment line, containing the timestamp. -/
def header_line (time : Int) : String :=
  "# This file was @generated by generate-roblox-std at " ++ toString time

/-- The timestamp-and-version stamping of `start_generation`. -/
def stamp (std : StandardLibrary) (time : Int) (ver : String) : StandardLibrary :=
  { std with last_updated := some time, last_selene_version := some ver }

/-- `RobloxGenerator::start_generation` after the external fetch: run the
pipeline, stamp the timestamp and generator version, and emit the header
line followed by the YAML rendering of the stamped descriptor.  The
in-memory extension with the parent of the baseline (external to the
packaged sources) happens after the bytes are produced and does not touch
them; the returned descriptor here is the stamped one. -/
def start_generation (test : Bool) (base_std : StandardLibrary) (api : ApiDump)
    (time : Int) (ver : String) (fuel : Nat) :
    Except GenError (List String × StandardLibrary) :=
  match pipeline_core test base_std api fuel with
  | .error e => .error e
  | .ok std0 =>
    .ok (header_line time :: yaml_lines (stamp std0 time ver), stamp std0 time ver)

end SeleneGen

namespace SeleneGen

/-- The flattened member sequence of the superclass walk of
`write_class_members`: the members of the class followed by those of each
ancestor, up to the root sentinel, with the same fuel discipline as the
walk itself. -/
def walk_members (api : ApiDump) (class_name : String) : Nat → Option (List ApiMember)
  | 0 => none
  | fuel + 1 =>
    match api.classes.find? (fun c => c.name == class_name) with
    | none => none
    | some cl =>
      if cl.superclass = "<<<ROOT>>>" then some cl.members
      else (walk_members api cl.superclass fuel).map (fun ms => cl.members ++ ms)

/-- The effect of a member sequence on a member table: insert the emitted
field of each member in order, later insertions overwriting earlier
ones. -/
def table_after (ms : List ApiMember) (t : Stbl) : Stbl :=
  ms.foldl (fun t m =>
    match member_field m with
    | some (n, f) => insertA n f t
    | none => t) t

/-- The auxiliary fold of `last_field`. -/
def last_field_aux (n : String) (acc : Option Field) (ms : List ApiMember) : Option Field :=
  ms.foldl (fun acc m =>
    match member_field m with
    | some (n2, f) => if n2 = n then some f else acc
    | none => acc) acc

/-- The field of the last member of the sequence that emits a field under
the given name, if any. -/
def last_field (n : String) (ms : List ApiMember) : Option Field :=
  last_field_aux n none ms

theorem lookupA_insertA_self {α : Type} (k : String) (v : α) (m : List (String × α)) :
    lookupA k (insertA k v m) = some v := by
  induction m with
  | nil => simp [insertA, lookupA]
  | cons p rest ih =>
    obtain ⟨k2, v2⟩ := p
    by_cases h : k2 = k
    · simp [insertA, h, lookupA]
    · simp [insertA, h, lookupA, ih]

theorem lookupA_insertA_ne {α : Type} (k k2 : String) (v : α) (m : List (String × α))
    (h : k2 ≠ k) : lookupA k (insertA k2 v m) = lookupA k m := by
  induction m with
  | nil => simp [insertA, lookupA, h]
  | cons p rest ih =>
    obtain ⟨k3, v3⟩ := p
    by_cases h3 : k3 = k2
    · subst h3
      have h5 : ¬ (k3 = k) := fun e => h e
      simp [insertA, lookupA, h5]
    · by_cases h4 : k3 = k
      · subst h4
        simp [insertA, h3, lookupA]
      · simp [insertA, h3, lookupA, h4, ih]

theorem lookupA_eq_none {α : Type} (k : String) (m : List (String × α))
    (h : containsKey k m = false) : lookupA k m = none := by
  unfold containsKey at h
  cases hl : lookupA k m with
  | none => rfl
  | some v => rw [hl] at h; simp at h

theorem containsKey_insertA {α : Type} (k k2 : String) (v : α) (m : List (String × α)) :
    containsKey k (insertA k2 v m) = (k2 = k || containsKey k m) := by
  by_cases h : k2 = k
  · subst h
    simp [containsKey, lookupA_insertA_self]
  · simp [containsKey, lookupA_insertA_ne _ _ _ _ h, h]

theorem containsKey_insertA_self {α : Type} (k : String) (v : α) (m : List (String × α)) :
    containsKey k (insertA k v m) = true := by
  simp [containsKey_insertA]

theorem table_after_nil (t : Stbl) : table_after [] t = t := rfl

theorem table_after_cons (m : ApiMember) (ms : List ApiMember) (t : Stbl) :
    table_after (m :: ms) t =
      table_after ms (match member_field m with
                      | some (n, f) => insertA n f t
                      | none => t) := rfl

theorem table_after_append (a b : List ApiMember) (t : Stbl) :
    table_after (a ++ b) t = table_after b (table_after a t) := by
  simp [table_after, List.foldl_append]

theorem last_field_aux_eq (n : String) :
    ∀ (ms : List ApiMember) (a : Option Field),
      last_field_aux n a ms =
        match last_field n ms with
        | some f => some f
        | none => a := by
  intro ms
  induction ms with
  | nil => intro a; simp [last_field, last_field_aux]
  | cons m rest ih =>
    intro a
    have hcons : ∀ b : Option Field, last_field_aux n b (m :: rest) =
        last_field_aux n
          (match member_field m with
           | some (n2, f) => if n2 = n then some f else b
           | none => b) rest := by
      intro b
      simp [last_field_aux]
    rw [last_field, hcons, hcons, ih, ih]
    cases hlf : last_field n rest with
    | some f => simp
    | none =>
      cases hm : member_field m with
      | none => simp
      | some p =>
        obtain ⟨n2, f⟩ := p
        by_cases h2 : n2 = n <;> simp [h2]

theorem last_field_cons (n : String) (m : ApiMember) (ms : List ApiMember) :
    last_field n (m :: ms) =
      match last_field n ms with
      | some f => some f
      | none =>
        match member_field m with
        | some (n2, f) => if n2 = n then some f else none
        | none => none := by
  have hcons : last_field n (m :: ms) =
      last_field_aux n
        (match member_field m with
         | some (n2, f) => if n2 = n then some f else none
         | none => none) ms := by
    simp [last_field, last_field_aux]
  rw [hcons, last_field_aux_eq]

theorem lookupA_table_after (n : String) :
    ∀ (ms : List ApiMember) (t : Stbl),
      lookupA n (table_after ms t) =
        match last_field n ms with
        | some f => some f
        | none => lookupA n t := by
  intro ms
  induction ms with
  | nil => intro t; simp [last_field, last_field_aux, table_after]
  | cons m rest ih =>
    intro t
    rw [table_after_cons, ih, last_field_cons]
    cases hlf : last_field n rest with
    | some f => simp
    | none =>
      cases hm : member_field m with
      | none => simp
      | some p =>
        obtain ⟨n2, f⟩ := p
        by_cases h2 : n2 = n
        · subst h2
          simp [lookupA_insertA_self]
        · simp [h2, lookupA_insertA_ne _ _ _ _ h2]

theorem containsKey_table_after (n : String) (ms : List ApiMember) (t : Stbl)
    (h : containsKey n t = true) : containsKey n (table_after ms t) = true := by
  unfold containsKey at h ⊢
  rw [lookupA_table_after]
  cases hlf : last_field n ms with
  | some f => simp
  | none => simpa using h

end SeleneGen

namespace SeleneGen

theorem members_loop_cons_not_unknown (test : Bool) (api : ApiDump) (s : Structs)
    (table : Stbl) (class_name : String) (m : ApiMember) (rest : List ApiMember) (fuel : Nat)
    (hm : m ≠ .Unknown) :
    members_loop test api s table class_name (m :: rest) (fuel + 1) =
      match (match member_class_ref m with
             | some n => write_class_struct test api s n fuel
             | none => .ok s) with
      | .error e => .error e
      | .ok s2 =>
        match member_field m with
        | some (name, f) => members_loop test api s2 (insertA name f table) class_name rest fuel
        | none => members_loop test api s2 table class_name rest fuel := by
  cases m with
  | Unknown => exact absurd rfl hm
  | Callback name tags => rfl
  | Event name tags => rfl
  | Function name tags parameters => rfl
  | Property name tags security value_type => rfl

theorem members_loop_table (test : Bool) (api : ApiDump) (class_name : String) :
    ∀ (ms : List ApiMember) (s : Structs) (t : Stbl) (fuel : Nat) (s2 : Structs) (t2 : Stbl),
      members_loop test api s t class_name ms fuel = .ok (s2, t2) →
      t2 = table_after ms t := by
  intro ms
  induction ms with
  | nil =>
    intro s t fuel s2 t2 h
    cases fuel with
    | zero => simp [members_loop] at h
    | succ g =>
      simp [members_loop] at h
      rw [← h.2, table_after_nil]
  | cons m rest ih =>
    intro s t fuel s2 t2 h
    cases fuel with
    | zero => simp [members_loop] at h
    | succ g =>
      by_cases hm : m = ApiMember.Unknown
      · subst hm
        cases htest : test with
        | true =>
          rw [htest] at h
          simp [members_loop] at h
        | false =>
          rw [htest] at h ih
          simp only [members_loop, if_false, Bool.false_eq_true] at h
          have h2 := ih _ _ _ _ _ h
          rw [h2, table_after_cons]
          simp [member_field, classify_member]
      · rw [members_loop_cons_not_unknown _ _ _ _ _ _ _ _ hm] at h
        cases he : (match member_class_ref m with
                    | some n => write_class_struct test api s n g
                    | none => .ok s) with
        | error e => rw [he] at h; simp at h
        | ok s3 =>
          rw [he] at h
          cases hf : member_field m with
          | none =>
            rw [hf] at h
            have h2 := ih _ _ _ _ _ h
            rw [h2, table_after_cons, hf]
          | some p =>
            obtain ⟨n, f⟩ := p
            rw [hf] at h
            have h2 := ih _ _ _ _ _ h
            rw [h2, table_after_cons, hf]

theorem write_class_members_walk (test : Bool) (api : ApiDump) :
    ∀ (fuel : Nat) (s : Structs) (t : Stbl) (class_name : String) (s2 : Structs) (t2 : Stbl),
      write_class_members test api s t class_name fuel = .ok (s2, t2) →
      ∃ ms, walk_members api class_name fuel = some ms ∧ t2 = table_after ms t := by
  intro fuel
  induction fuel with
  | zero =>
    intro s t c s2 t2 h
    simp [write_class_members] at h
  | succ g ih =>
    intro s t c s2 t2 h
    simp only [write_class_members] at h
    split at h
    · simp at h
    · rename_i cl hf
      split at h
      · simp at h
      · rename_i s3 t3 hl
        have ht3 : t3 = table_after cl.members t := members_loop_table _ _ _ _ _ _ _ _ _ hl
        split at h
        · rename_i hr
          simp at h
          refine ⟨cl.members, ?_, ?_⟩
          · simp [walk_members, hf, hr]
          · rw [← h.2, ht3]
        · rename_i hr
          obtain ⟨ms, hw, hta⟩ := ih _ _ _ _ _ h
          refine ⟨cl.members ++ ms, ?_, ?_⟩
          · simp [walk_members, hf, hr, hw]
          · rw [hta, ht3, table_after_append]

end SeleneGen

namespace SeleneGen

theorem dom_mono : ∀ (fuel : Nat) (test : Bool) (api : ApiDump),
    (∀ s c s2, write_class_struct test api s c fuel = .ok s2 →
       ∀ k, containsKey k s = true → containsKey k s2 = true) ∧
    (∀ s t c s2 t2, write_class_members test api s t c fuel = .ok (s2, t2) →
       ∀ k, containsKey k s = true → containsKey k s2 = true) ∧
    (∀ s t c ms s2 t2, members_loop test api s t c ms fuel = .ok (s2, t2) →
       ∀ k, containsKey k s = true → containsKey k s2 = true) := by
  intro fuel
  induction fuel with
  | zero =>
    intro test api
    refine ⟨?_, ?_, ?_⟩
    · intro s c s2 h; simp [write_class_struct] at h
    · intro s t c s2 t2 h; simp [write_class_members] at h
    · intro s t c ms s2 t2 h; simp [members_loop] at h
  | succ g ih =>
    intro test api
    obtain ⟨IHs, IHm, IHl⟩ := ih test api
    refine ⟨?_, ?_, ?_⟩
    · intro s c s2 h k hk
      simp only [write_class_struct] at h
      split at h
      · simp at h; rw [← h]; exact hk
      · split at h
        · simp at h
        · rename_i s3 table hm
          simp at h
          rw [← h, containsKey_insertA]
          have hk1 : containsKey k (insertA c ([] : Stbl) s) = true := by
            rw [containsKey_insertA, hk]; simp
          have := IHm _ _ _ _ _ hm k hk1
          rw [this]; simp
    · intro s t c s2 t2 h k hk
      simp only [write_class_members] at h
      split at h
      · simp at h
      · rename_i cl hf
        split at h
        · simp at h
        · rename_i s3 t3 hl
          have hk3 := IHl _ _ _ _ _ _ hl k hk
          split at h
          · simp at h; rw [← h.1]; exact hk3
          · exact IHm _ _ _ _ _ h k hk3
    · intro s t c ms s2 t2 h k hk
      cases ms with
      | nil =>
        simp [members_loop] at h
        rw [← h.1]; exact hk
      | cons m rest =>
        by_cases hum : m = ApiMember.Unknown
        · subst hum
          cases htest : test with
          | true =>
            rw [htest] at h
            simp [members_loop] at h
          | false =>
            rw [htest] at h IHl
            simp only [members_loop, if_false, Bool.false_eq_true] at h
            exact IHl _ _ _ _ _ _ h k hk
        · rw [members_loop_cons_not_unknown _ _ _ _ _ _ _ _ hum] at h
          split at h
          · simp at h
          · rename_i s3 he
            have hk3 : containsKey k s3 = true := by
              cases hcr : member_class_ref m with
              | some n =>
                simp only [hcr] at he
                exact IHs _ _ _ he k hk
              | none =>
                simp only [hcr] at he
                simp at he; rw [← he]; exact hk
            split at h
            · exact IHl _ _ _ _ _ _ h k hk3
            · exact IHl _ _ _ _ _ _ h k hk3

end SeleneGen

namespace SeleneGen

theorem pres_existing : ∀ (fuel : Nat) (test : Bool) (api : ApiDump),
    (∀ s c s2, write_class_struct test api s c fuel = .ok s2 →
       ∀ k, containsKey k s = true → lookupA k s2 = lookupA k s) ∧
    (∀ s t c s2 t2, write_class_members test api s t c fuel = .ok (s2, t2) →
       ∀ k, containsKey k s = true → lookupA k s2 = lookupA k s) ∧
    (∀ s t c ms s2 t2, members_loop test api s t c ms fuel = .ok (s2, t2) →
       ∀ k, containsKey k s = true → lookupA k s2 = lookupA k s) := by
  intro fuel
  induction fuel with
  | zero =>
    intro test api
    refine ⟨?_, ?_, ?_⟩
    · intro s c s2 h; simp [write_class_struct] at h
    · intro s t c s2 t2 h; simp [write_class_members] at h
    · intro s t c ms s2 t2 h; simp [members_loop] at h
  | succ g ih =>
    intro test api
    obtain ⟨IHs, IHm, IHl⟩ := ih test api
    refine ⟨?_, ?_, ?_⟩
    · intro s c s2 h k hk
      simp only [write_class_struct] at h
      split at h
      · simp at h; rw [← h]
      · rename_i hc
        split at h
        · simp at h
        · rename_i s3 table hm
          simp at h
          have hkc : c ≠ k := by
            intro he; rw [he] at hc; exact hc hk
          have hk1 : containsKey k (insertA c ([] : Stbl) s) = true := by
            rw [containsKey_insertA, hk]; simp
          have h2 := IHm _ _ _ _ _ hm k hk1
          rw [← h, lookupA_insertA_ne _ _ _ _ hkc, h2,
            lookupA_insertA_ne _ _ _ _ hkc]
    · intro s t c s2 t2 h k hk
      simp only [write_class_members] at h
      split at h
      · simp at h
      · rename_i cl hf
        split at h
        · simp at h
        · rename_i s3 t3 hl
          have h3 := IHl _ _ _ _ _ _ hl k hk
          have hk3 := (dom_mono g test api).2.2 _ _ _ _ _ _ hl k hk
          split at h
          · simp at h; rw [← h.1]; exact h3
          · rw [IHm _ _ _ _ _ h k hk3]; exact h3
    · intro s t c ms s2 t2 h k hk
      cases ms with
      | nil =>
        simp [members_loop] at h
        rw [← h.1]
      | cons m rest =>
        by_cases hum : m = ApiMember.Unknown
        · subst hum
          cases htest : test with
          | true =>
            rw [htest] at h
            simp [members_loop] at h
          | false =>
            rw [htest] at h IHl
            simp only [members_loop, if_false, Bool.false_eq_true] at h
            exact IHl _ _ _ _ _ _ h k hk
        · rw [members_loop_cons_not_unknown _ _ _ _ _ _ _ _ hum] at h
          split at h
          · simp at h
          · rename_i s3 he
            have hens : lookupA k s3 = lookupA k s ∧ containsKey k s3 = true := by
              cases hcr : member_class_ref m with
              | some n =>
                simp only [hcr] at he
                exact ⟨IHs _ _ _ he k hk, (dom_mono g test api).1 _ _ _ he k hk⟩
              | none =>
                simp only [hcr] at he
                simp at he; rw [← he]; exact ⟨rfl, hk⟩
            split at h
            · rw [IHl _ _ _ _ _ _ h k hens.2]; exact hens.1
            · rw [IHl _ _ _ _ _ _ h k hens.2]; exact hens.1

/-- A struct table is complete for a class when it is the table of the full
superclass walk of that class applied to the wildcard-seeded fresh table. -/
def Complete (api : ApiDump) (k : String) (t : Stbl) : Prop :=
  ∃ g ms, walk_members api k g = some ms ∧ t = table_after ms table0

theorem inv_complete : ∀ (fuel : Nat) (test : Bool) (api : ApiDump),
    (∀ s c s2, write_class_struct test api s c fuel = .ok s2 →
       ∀ k, containsKey k s = false → ∀ t, lookupA k s2 = some t → Complete api k t) ∧
    (∀ s t c s2 t2, write_class_members test api s t c fuel = .ok (s2, t2) →
       ∀ k, containsKey k s = false → ∀ t, lookupA k s2 = some t → Complete api k t) ∧
    (∀ s t c ms s2 t2, members_loop test api s t c ms fuel = .ok (s2, t2) →
       ∀ k, containsKey k s = false → ∀ t, lookupA k s2 = some t → Complete api k t) := by
  intro fuel
  induction fuel with
  | zero =>
    intro test api
    refine ⟨?_, ?_, ?_⟩
    · intro s c s2 h; simp [write_class_struct] at h
    · intro s t c s2 t2 h; simp [write_class_members] at h
    · intro s t c ms s2 t2 h; simp [members_loop] at h
  | succ g ih =>
    intro test api
    obtain ⟨IHs, IHm, IHl⟩ := ih test api
    refine ⟨?_, ?_, ?_⟩
    · intro s c s2 h k hk t ht
      simp only [write_class_struct] at h
      split at h
      · simp at h
        rw [← h] at ht
        rw [lookupA_eq_none _ _ hk] at ht
        exact absurd ht (by simp)
      · rename_i hc
        split at h
        · simp at h
        · rename_i s3 table hm
          simp at h
          by_cases hkc : k = c
          · subst hkc
            rw [← h, lookupA_insertA_self] at ht
            obtain ⟨ms, hw, hta⟩ := write_class_members_walk _ _ _ _ _ _ _ _ hm
            injection ht with ht2
            exact ⟨g, ms, hw, by rw [← ht2, hta]⟩
          · have hck : c ≠ k := fun e => hkc e.symm
            rw [← h, lookupA_insertA_ne _ _ _ _ hck] at ht
            have hk1 : containsKey k (insertA c ([] : Stbl) s) = false := by
              rw [containsKey_insertA, hk]
              simp [hck]
            exact IHm _ _ _ _ _ hm k hk1 t ht
    · intro s t0 c s2 t2 h k hk t ht
      simp only [write_class_members] at h
      split at h
      · simp at h
      · rename_i cl hf
        split at h
        · simp at h
        · rename_i s3 t3 hl
          split at h
          · simp at h
            rw [← h.1] at ht
            exact IHl _ _ _ _ _ _ hl k hk t ht
          · cases hk3 : containsKey k s3 with
            | true =>
              have hp := (pres_existing g test api).2.1 _ _ _ _ _ h k hk3
              rw [hp] at ht
              exact IHl _ _ _ _ _ _ hl k hk t ht
            | false =>
              exact IHm _ _ _ _ _ h k hk3 t ht
    · intro s t0 c ms s2 t2 h k hk t ht
      cases ms with
      | nil =>
        simp [members_loop] at h
        rw [← h.1] at ht
        rw [lookupA_eq_none _ _ hk] at ht
        exact absurd ht (by simp)
      | cons m rest =>
        by_cases hum : m = ApiMember.Unknown
        · subst hum
          cases htest : test with
          | true =>
            rw [htest] at h
            simp [members_loop] at h
          | false =>
            rw [htest] at h IHl
            simp only [members_loop, if_false, Bool.false_eq_true] at h
            exact IHl _ _ _ _ _ _ h k hk t ht
        · rw [members_loop_cons_not_unknown _ _ _ _ _ _ _ _ hum] at h
          split at h
          · simp at h
          · rename_i s3 he
            have hrest : ∀ tb, members_loop test api s3 tb c rest g = .ok (s2, t2) →
                Complete api k t := by
              intro tb hr
              cases hk3 : containsKey k s3 with
              | true =>
                have hp := (pres_existing g test api).2.2 _ _ _ _ _ _ hr k hk3
                rw [hp] at ht
                cases hcr : member_class_ref m with
                | some n =>
                  simp only [hcr] at he
                  exact IHs _ _ _ he k hk t ht
                | none =>
                  simp only [hcr] at he
                  simp at he
                  rw [← he] at hk3
                  rw [hk3] at hk
                  exact absurd hk (by simp)
              | false =>
                exact IHl _ _ _ _ _ _ hr k hk3 t ht
            split at h
            · exact hrest _ h
            · exact hrest _ h

end SeleneGen

namespace SeleneGen

theorem write_class_struct_succ (test : Bool) (api : ApiDump) (s : Structs)
    (c : String) (fuel : Nat) :
    write_class_struct test api s c (fuel + 1) =
      (if containsKey c s then .ok s
       else match write_class_members test api (insertA c [] s) table0 c fuel with
            | .error e => .error e
            | .ok (s2, table) => .ok (insertA c table s2)) := rfl

theorem write_class_members_succ (test : Bool) (api : ApiDump) (s : Structs)
    (t : Stbl) (c : String) (fuel : Nat) :
    write_class_members test api s t c (fuel + 1) =
      (match api.classes.find? (fun cl => cl.name == c) with
       | none => .error (.panicked "called Option::unwrap() on a None value")
       | some cl =>
         match members_loop test api s t c cl.members fuel with
         | .error e => .error e
         | .ok (s2, t2) =>
           if cl.superclass = "<<<ROOT>>>" then .ok (s2, t2)
           else write_class_members test api s2 t2 cl.superclass fuel) := rfl

theorem fuel_mono : ∀ (fuel : Nat) (test : Bool) (api : ApiDump),
    (∀ s c, write_class_struct test api s c fuel ≠ .error .fuel →
       write_class_struct test api s c (fuel + 1) = write_class_struct test api s c fuel) ∧
    (∀ s t c, write_class_members test api s t c fuel ≠ .error .fuel →
       write_class_members test api s t c (fuel + 1) = write_class_members test api s t c fuel) ∧
    (∀ s t c ms, members_loop test api s t c ms fuel ≠ .error .fuel →
       members_loop test api s t c ms (fuel + 1) = members_loop test api s t c ms fuel) := by
  intro fuel
  induction fuel with
  | zero =>
    intro test api
    refine ⟨?_, ?_, ?_⟩
    · intro s c h; exact absurd rfl h
    · intro s t c h; exact absurd rfl h
    · intro s t c ms h
      cases ms with
      | nil => exact absurd rfl h
      | cons m rest => exact absurd rfl h
  | succ g ih =>
    intro test api
    obtain ⟨IHs, IHm, IHl⟩ := ih test api
    refine ⟨?_, ?_, ?_⟩
    · intro s c h
      rw [write_class_struct_succ test api s c (g + 1),
        write_class_struct_succ test api s c g]
      rw [write_class_struct_succ test api s c g] at h
      cases hc : containsKey c s with
      | true => simp [hc]
      | false =>
        simp only [hc, if_false, Bool.false_eq_true] at h ⊢
        have hne : write_class_members test api (insertA c [] s) table0 c g ≠ .error .fuel := by
          intro hx
          rw [hx] at h
          simp at h
        rw [IHm _ _ _ hne]
    · intro s t c h
      rw [write_class_members_succ test api s t c (g + 1),
        write_class_members_succ test api s t c g]
      rw [write_class_members_succ test api s t c g] at h
      cases hf : api.classes.find? (fun cl => cl.name == c) with
      | none => simp only [hf]
      | some cl =>
        simp only [hf] at h ⊢
        have hln : members_loop test api s t c cl.members g ≠ .error .fuel := by
          intro hx
          rw [hx] at h
          simp at h
        rw [IHl _ _ _ _ hln]
        cases hlp : members_loop test api s t c cl.members g with
        | error e => simp only [hlp]
        | ok p =>
          obtain ⟨s3, t3⟩ := p
          simp only [hlp] at h ⊢
          by_cases hr : cl.superclass = "<<<ROOT>>>"
          · simp [hr]
          · rw [if_neg hr] at h
            rw [if_neg hr, if_neg hr]
            exact IHm _ _ _ h
    · intro s t c ms h
      cases ms with
      | nil => rfl
      | cons m rest =>
        by_cases hum : m = ApiMember.Unknown
        · subst hum
          cases htest : test with
          | true => rfl
          | false =>
            rw [htest] at h IHl
            simp only [members_loop, if_false, Bool.false_eq_true] at h ⊢
            exact IHl _ _ _ _ h
        · rw [members_loop_cons_not_unknown test api s t c m rest (g + 1) hum]
          rw [members_loop_cons_not_unknown test api s t c m rest g hum] at h ⊢
          cases hcr : member_class_ref m with
          | some n =>
            simp only [hcr] at h ⊢
            have hwn : write_class_struct test api s n g ≠ .error .fuel := by
              intro hx
              rw [hx] at h
              simp at h
            rw [IHs _ _ hwn]
            cases hws : write_class_struct test api s n g with
            | error e => simp only [hws]
            | ok s3 =>
              simp only [hws] at h ⊢
              cases hmf : member_field m with
              | none =>
                simp only [hmf] at h ⊢
                exact IHl _ _ _ _ h
              | some p =>
                obtain ⟨n2, f⟩ := p
                simp only [hmf] at h ⊢
                exact IHl _ _ _ _ h
          | none =>
            simp only [hcr] at h ⊢
            cases hmf : member_field m with
            | none =>
              simp only [hmf] at h ⊢
              exact IHl _ _ _ _ h
            | some p =>
              obtain ⟨n2, f⟩ := p
              simp only [hmf] at h ⊢
              exact IHl _ _ _ _ h

theorem fuel_mono_le (test : Bool) (api : ApiDump) :
    ∀ (f f2 : Nat), f ≤ f2 →
    (∀ s c, write_class_struct test api s c f ≠ .error .fuel →
       write_class_struct test api s c f2 = write_class_struct test api s c f) ∧
    (∀ s t c, write_class_members test api s t c f ≠ .error .fuel →
       write_class_members test api s t c f2 = write_class_members test api s t c f) ∧
    (∀ s t c ms, members_loop test api s t c ms f ≠ .error .fuel →
       members_loop test api s t c ms f2 = members_loop test api s t c ms f) := by
  intro f f2 hle
  induction f2 with
  | zero =>
    have : f = 0 := Nat.le_zero.mp hle
    subst this
    exact ⟨fun s c _ => rfl, fun s t c _ => rfl, fun s t c ms _ => rfl⟩
  | succ g ih =>
    rcases Nat.lt_or_ge f (g + 1) with hlt | hge
    · have hle2 : f ≤ g := Nat.lt_succ_iff.mp hlt
      obtain ⟨A, B, C⟩ := ih hle2
      refine ⟨?_, ?_, ?_⟩
      · intro s c h
        have hg : write_class_struct test api s c g ≠ .error .fuel := by
          rw [A _ _ h]; exact h
        rw [(fuel_mono g test api).1 _ _ hg, A _ _ h]
      · intro s t c h
        have hg : write_class_members test api s t c g ≠ .error .fuel := by
          rw [B _ _ _ h]; exact h
        rw [(fuel_mono g test api).2.1 _ _ _ hg, B _ _ _ h]
      · intro s t c ms h
        have hg : members_loop test api s t c ms g ≠ .error .fuel := by
          rw [C _ _ _ _ h]; exact h
        rw [(fuel_mono g test api).2.2 _ _ _ _ hg, C _ _ _ _ h]
    · have : f = g + 1 := Nat.le_antisymm hle hge
      subst this
      exact ⟨fun s c _ => rfl, fun s t c _ => rfl, fun s t c ms _ => rfl⟩

end SeleneGen

namespace SeleneGen

theorem members_loop_nil (test : Bool) (api : ApiDump) (s : Structs) (t : Stbl)
    (c : String) (fuel : Nat) :
    members_loop test api s t c [] (fuel + 1) = .ok (s, t) := rfl

theorem members_loop_unknown (test : Bool) (api : ApiDump) (s : Structs) (t : Stbl)
    (c : String) (rest : List ApiMember) (fuel : Nat) :
    members_loop test api s t c (.Unknown :: rest) (fuel + 1) =
      (if test then
         .error (.panicked ("unknown property found in Roblox API dump for " ++ c))
       else members_loop test api s t c rest fuel) := rfl

/-- The number of class names of the dump that do not yet have a struct
entry; the decreasing measure of the synthesis recursion. -/
def undone (api : ApiDump) (s : Structs) : Nat :=
  (api.classes.map (fun cl => cl.name)).countP (fun n => !(containsKey n s))

theorem undone_mono (api : ApiDump) (s s2 : Structs)
    (h : ∀ k, containsKey k s = true → containsKey k s2 = true) :
    undone api s2 ≤ undone api s := by
  apply List.countP_mono_left
  intro n _ hp
  cases hcs : containsKey n s with
  | false => rfl
  | true =>
    rw [h n hcs] at hp
    simp at hp

theorem undone_insertA_lt (api : ApiDump) (v : Stbl) (s : Structs) (c : String)
    (hc : containsKey c s = false)
    (hmem : c ∈ api.classes.map (fun cl => cl.name)) :
    undone api (insertA c v s) < undone api s := by
  unfold undone
  revert hmem
  generalize api.classes.map (fun cl => cl.name) = l
  intro hmem
  induction l with
  | nil => cases hmem
  | cons a rest ih =>
    rw [List.countP_cons, List.countP_cons]
    have hle : rest.countP (fun n => !(containsKey n (insertA c v s))) ≤
        rest.countP (fun n => !(containsKey n s)) := by
      apply List.countP_mono_left
      intro n _ hp
      cases hcs : containsKey n s with
      | false => rfl
      | true =>
        have : containsKey n (insertA c v s) = true := by
          rw [containsKey_insertA, hcs]
          simp
        rw [this] at hp
        simp at hp
    by_cases hac : a = c
    · subst hac
      have h1 : (!(containsKey a (insertA a v s))) = false := by
        rw [containsKey_insertA_self]
        rfl
      have h2 : (!(containsKey a s)) = true := by
        rw [hc]
        rfl
      rw [h1, h2]
      simp
      omega
    · cases hmem with
      | head => exact absurd rfl hac
      | tail _ hmem2 =>
        have := ih hmem2
        have hne : ¬(c = a) := fun e => hac e.symm
        have heq : containsKey a (insertA c v s) = containsKey a s := by
          rw [containsKey_insertA]
          simp [hne]
        rw [heq]
        omega

/-- The superclass chain of a class name eventually stops: the name is
absent from the dump (the walk panics there), or the walk reaches the root
sentinel.  This is the data-model invariant the spec imposes on well-formed
dumps (cyclic superclass chains are malformed input). -/
inductive ChainOk (api : ApiDump) : String → Prop where
  | missing : ∀ c, api.classes.find? (fun cl => cl.name == c) = none → ChainOk api c
  | root : ∀ c cl, api.classes.find? (fun cl => cl.name == c) = some cl →
      cl.superclass = "<<<ROOT>>>" → ChainOk api c
  | step : ∀ c cl, api.classes.find? (fun cl => cl.name == c) = some cl →
      ChainOk api cl.superclass → ChainOk api c

theorem terminates_master (api : ApiDump) (hchain : ∀ n, ChainOk api n) :
    ∀ (k : Nat) (s : Structs), undone api s ≤ k →
      (∀ test c, ∃ f, write_class_struct test api s c f ≠ .error .fuel) ∧
      (∀ test t c, ∃ f, write_class_members test api s t c f ≠ .error .fuel) ∧
      (∀ test t c ms, ∃ f, members_loop test api s t c ms f ≠ .error .fuel) := by
  intro k
  induction k using Nat.strong_induction_on with
  | _ k IH =>
    have A : ∀ s, undone api s ≤ k → ∀ test c,
        ∃ f, write_class_struct test api s c f ≠ .error .fuel := by
      intro s hs test c
      by_cases hc : containsKey c s = true
      · refine ⟨1, ?_⟩
        rw [write_class_struct_succ]
        simp [hc]
      · have hcf : containsKey c s = false := by
          cases h2 : containsKey c s with
          | false => rfl
          | true => exact absurd h2 hc
        by_cases hmem : c ∈ api.classes.map (fun cl => cl.name)
        · have hlt : undone api (insertA c ([] : Stbl) s) < undone api s :=
            undone_insertA_lt api [] s c hcf hmem
          have hltk : undone api (insertA c ([] : Stbl) s) < k :=
            Nat.lt_of_lt_of_le hlt hs
          obtain ⟨_, Bm, _⟩ := IH _ hltk (insertA c ([] : Stbl) s) (Nat.le_refl _)
          obtain ⟨f1, hf1⟩ := Bm test table0 c
          refine ⟨f1 + 1, ?_⟩
          rw [write_class_struct_succ]
          simp only [hcf, if_false, Bool.false_eq_true]
          cases hw : write_class_members test api (insertA c ([] : Stbl) s) table0 c f1 with
          | error e =>
            rw [hw] at hf1
            intro hx
            simp at hx
            exact hf1 (by rw [hx])
          | ok p =>
            obtain ⟨s2, table⟩ := p
            simp
        · have hfind : api.classes.find? (fun cl => cl.name == c) = none := by
            rw [List.find?_eq_none]
            intro cl hcl
            simp only [beq_iff_eq]
            intro he
            exact hmem (by rw [← he]; exact List.mem_map_of_mem _ hcl)
          refine ⟨2, ?_⟩
          rw [write_class_struct_succ]
          simp only [hcf, if_false, Bool.false_eq_true]
          rw [write_class_members_succ]
          simp [hfind]
    have C : ∀ (ms : List ApiMember) (s : Structs), undone api s ≤ k → ∀ test t c,
        ∃ f, members_loop test api s t c ms f ≠ .error .fuel := by
      intro ms
      induction ms with
      | nil =>
        intro s hs test t c
        refine ⟨1, ?_⟩
        rw [members_loop_nil]
        simp
      | cons m rest ihrest =>
        intro s hs test t c
        by_cases hum : m = ApiMember.Unknown
        · subst hum
          cases htest : test with
          | true =>
            refine ⟨1, ?_⟩
            rw [members_loop_unknown]
            simp
          | false =>
            obtain ⟨f1, hf1⟩ := ihrest s hs false t c
            refine ⟨f1 + 1, ?_⟩
            rw [members_loop_unknown]
            simpa using hf1
        · cases hcr : member_class_ref m with
          | none =>
            cases hmf : member_field m with
            | none =>
              obtain ⟨f1, hf1⟩ := ihrest s hs test t c
              refine ⟨f1 + 1, ?_⟩
              rw [members_loop_cons_not_unknown _ _ _ _ _ _ _ _ hum]
              simpa [hcr, hmf] using hf1
            | some p =>
              obtain ⟨n2, fd⟩ := p
              obtain ⟨f1, hf1⟩ := ihrest s hs test (insertA n2 fd t) c
              refine ⟨f1 + 1, ?_⟩
              rw [members_loop_cons_not_unknown _ _ _ _ _ _ _ _ hum]
              simpa [hcr, hmf] using hf1
          | some n =>
            obtain ⟨f1, hf1⟩ := A s hs test n
            cases hw : write_class_struct test api s n f1 with
            | error e =>
              refine ⟨f1 + 1, ?_⟩
              rw [members_loop_cons_not_unknown _ _ _ _ _ _ _ _ hum]
              simp only [hcr, hw]
              rw [hw] at hf1
              intro hx
              simp at hx
              exact hf1 (by rw [hx])
            | ok s2 =>
              have hs2 : undone api s2 ≤ k := by
                refine Nat.le_trans (undone_mono api s s2 ?_) hs
                intro k2 hk2
                exact (dom_mono f1 test api).1 _ _ _ hw k2 hk2
              have hwne : write_class_struct test api s n f1 ≠ .error .fuel := by
                rw [hw]; simp
              cases hmf : member_field m with
              | none =>
                obtain ⟨f2, hf2⟩ := ihrest s2 hs2 test t c
                refine ⟨max f1 f2 + 1, ?_⟩
                rw [members_loop_cons_not_unknown _ _ _ _ _ _ _ _ hum]
                simp only [hcr]
                rw [(fuel_mono_le test api f1 (max f1 f2) (Nat.le_max_left _ _)).1 _ _ hwne, hw]
                simp only [hmf]
                rw [(fuel_mono_le test api f2 (max f1 f2) (Nat.le_max_right _ _)).2.2 _ _ _ _ hf2]
                exact hf2
              | some p =>
                obtain ⟨n2, fd⟩ := p
                obtain ⟨f2, hf2⟩ := ihrest s2 hs2 test (insertA n2 fd t) c
                refine ⟨max f1 f2 + 1, ?_⟩
                rw [members_loop_cons_not_unknown _ _ _ _ _ _ _ _ hum]
                simp only [hcr]
                rw [(fuel_mono_le test api f1 (max f1 f2) (Nat.le_max_left _ _)).1 _ _ hwne, hw]
                simp only [hmf]
                rw [(fuel_mono_le test api f2 (max f1 f2) (Nat.le_max_right _ _)).2.2 _ _ _ _ hf2]
                exact hf2
    have B : ∀ c, ChainOk api c → ∀ s, undone api s ≤ k → ∀ test t,
        ∃ f, write_class_members test api s t c f ≠ .error .fuel := by
      intro c hc
      induction hc with
      | missing c2 hf =>
        intro s hs test t
        refine ⟨1, ?_⟩
        rw [write_class_members_succ]
        simp [hf]
      | root c2 cl hf hr =>
        intro s hs test t
        obtain ⟨f1, hf1⟩ := C cl.members s hs test t c2
        refine ⟨f1 + 1, ?_⟩
        rw [write_class_members_succ]
        simp only [hf]
        cases hlp : members_loop test api s t c2 cl.members f1 with
        | error e =>
          rw [hlp] at hf1
          intro hx
          simp at hx
          exact hf1 (by rw [hx])
        | ok p =>
          obtain ⟨s3, t3⟩ := p
          simp [hr]
      | step c2 cl hf hsub ihsub =>
        intro s hs test t
        obtain ⟨f1, hf1⟩ := C cl.members s hs test t c2
        cases hlp : members_loop test api s t c2 cl.members f1 with
        | error e =>
          refine ⟨f1 + 1, ?_⟩
          rw [write_class_members_succ]
          simp only [hf, hlp]
          rw [hlp] at hf1
          intro hx
          simp at hx
          exact hf1 (by rw [hx])
        | ok p =>
          obtain ⟨s3, t3⟩ := p
          by_cases hr : cl.superclass = "<<<ROOT>>>"
          · refine ⟨f1 + 1, ?_⟩
            rw [write_class_members_succ]
            simp only [hf, hlp]
            simp [hr]
          · have hs3 : undone api s3 ≤ k := by
              refine Nat.le_trans (undone_mono api s s3 ?_) hs
              intro k2 hk2
              exact (dom_mono f1 test api).2.2 _ _ _ _ _ _ hlp k2 hk2
            obtain ⟨f2, hf2⟩ := ihsub s3 hs3 test t3
            have hlne : members_loop test api s t c2 cl.members f1 ≠ .error .fuel := by
              rw [hlp]; simp
            refine ⟨max f1 f2 + 1, ?_⟩
            rw [write_class_members_succ]
            simp only [hf]
            rw [(fuel_mono_le test api f1 (max f1 f2) (Nat.le_max_left _ _)).2.2 _ _ _ _ hlne,
              hlp]
            simp only [if_neg hr]
            rw [(fuel_mono_le test api f2 (max f1 f2) (Nat.le_max_right _ _)).2.1 _ _ _ hf2]
            exact hf2
    intro s hs
    exact ⟨fun test c => A s hs test c,
           fun test t c => B c (hchain c) s hs test t,
           fun test t c ms => C ms s hs test t c⟩

end SeleneGen

namespace SeleneGen

theorem enum_prefix_ne (x y : String) (h : ("Enum." ++ x).data ≠ y.data) :
    "Enum." ++ x ≠ y := by
  intro he
  exact h (by rw [he])

theorem enum_fn_key_ne_instance_new (x : String) : enum_fn_key x ≠ "Instance.new" := by
  unfold enum_fn_key
  rw [String.append_assoc]
  intro he
  have h := congrArg String.data he
  rw [String.data_append] at h
  injection h with h1 h2
  exact absurd h1 (by decide)

theorem enum_item_key_fn (ename : String) :
    enum_item_key ename "GetEnumItems" = enum_fn_key ename := by
  unfold enum_item_key enum_fn_key
  rw [String.append_assoc ("Enum." ++ ename) "." "GetEnumItems"]
  rfl

theorem write_enum_items_preserve (ename : String) (K : String) :
    ∀ (items : List ApiEnumItem) (g : List (String × Field)),
      (∀ it ∈ items, enum_item_key ename it.name ≠ K) →
      lookupA K (write_enum_items ename items g) = lookupA K g := by
  intro items
  induction items with
  | nil => intro g _; rfl
  | cons it rest ih =>
    intro g hne
    rw [write_enum_items, ih _ (fun it2 h2 => hne it2 (List.mem_cons_of_mem _ h2)),
      lookupA_insertA_ne _ _ _ _ (hne it (List.mem_cons_self _ _))]

theorem write_enum_items_sets (ename : String) (K : String) :
    ∀ (items : List ApiEnumItem) (g : List (String × Field)),
      (∃ it ∈ items, enum_item_key ename it.name = K) →
      lookupA K (write_enum_items ename items g) = some enum_item_field := by
  intro items
  induction items with
  | nil => rintro g ⟨it, h, _⟩; cases h
  | cons it rest ih =>
    intro g hex
    rw [write_enum_items]
    by_cases hrest : ∃ it2 ∈ rest, enum_item_key ename it2.name = K
    · exact ih _ hrest
    · obtain ⟨it2, hmem, heq⟩ := hex
      have hit : enum_item_key ename it.name = K := by
        cases hmem with
        | head => exact heq
        | tail _ h2 => exact absurd ⟨it2, h2, heq⟩ hrest
      rw [write_enum_items_preserve _ _ _ _ ?hne]
      · rw [hit, lookupA_insertA_self]
      · intro it2 h2 hk
        exact hrest ⟨it2, h2, hk⟩

theorem write_enums_go_append (a b : List ApiEnum) (g : List (String × Field)) :
    write_enums_go (a ++ b) g = write_enums_go b (write_enums_go a g) := by
  induction a generalizing g with
  | nil => rfl
  | cons e rest ih =>
    rw [List.cons_append, write_enums_go, write_enums_go, ih]

theorem write_enums_go_preserve (K : String) :
    ∀ (enums : List ApiEnum) (g : List (String × Field)),
      (∀ e ∈ enums, enum_fn_key e.name ≠ K ∧
         ∀ it ∈ e.items, enum_item_key e.name it.name ≠ K) →
      lookupA K (write_enums_go enums g) = lookupA K g := by
  intro enums
  induction enums with
  | nil => intro g _; rfl
  | cons e rest ih =>
    intro g hne
    rw [write_enums_go, ih _ (fun e2 h2 => hne e2 (List.mem_cons_of_mem _ h2)),
      write_enum_items_preserve _ _ _ _ (hne e (List.mem_cons_self _ _)).2,
      lookupA_insertA_ne _ _ _ _ (hne e (List.mem_cons_self _ _)).1]

theorem write_roblox_classes_go_append (a b : List ApiClass) (m : List (String × RobloxClass)) :
    write_roblox_classes_go (a ++ b) m = write_roblox_classes_go b (write_roblox_classes_go a m) := by
  induction a generalizing m with
  | nil => rfl
  | cons cl rest ih =>
    rw [List.cons_append, write_roblox_classes_go, write_roblox_classes_go, ih]

theorem write_roblox_classes_go_preserve (K : String) :
    ∀ (classes : List ApiClass) (m : List (String × RobloxClass)),
      (∀ cl ∈ classes, cl.name ≠ K) →
      lookupA K (write_roblox_classes_go classes m) = lookupA K m := by
  intro classes
  induction classes with
  | nil => intro m _; rfl
  | cons cl rest ih =>
    intro m hne
    rw [write_roblox_classes_go, ih _ (fun c2 h2 => hne c2 (List.mem_cons_of_mem _ h2)),
      lookupA_insertA_ne _ _ _ _ (hne cl (List.mem_cons_self _ _))]

theorem mem_instance_names (api : ApiDump) (n : String) :
    n ∈ instance_names api ↔
      ∃ cl, cl ∈ api.classes ∧ cl.name = n ∧ cl.tags.contains "NotCreatable" = false := by
  rw [instance_names, List.mem_filterMap]
  constructor
  · rintro ⟨cl, hmem, hf⟩
    cases hcontains : cl.tags.contains "NotCreatable" with
    | true => rw [hcontains] at hf; simp at hf
    | false =>
      rw [hcontains] at hf
      simp at hf
      exact ⟨cl, hmem, hf, hcontains⟩
  · rintro ⟨cl, hmem, hn, hcontains⟩
    refine ⟨cl, hmem, ?_⟩
    rw [hcontains]
    simp [hn]

theorem mem_service_names (api : ApiDump) (n : String) :
    n ∈ service_names api ↔
      ∃ cl, cl ∈ api.classes ∧ cl.name = n ∧ cl.tags.contains "Service" = true := by
  rw [service_names, List.mem_filterMap]
  constructor
  · rintro ⟨cl, hmem, hf⟩
    cases hcontains : cl.tags.contains "Service" with
    | false => rw [hcontains] at hf; simp at hf
    | true =>
      rw [hcontains] at hf
      simp at hf
      exact ⟨cl, hmem, hf, hcontains⟩
  · rintro ⟨cl, hmem, hn, hcontains⟩
    refine ⟨cl, hmem, ?_⟩
    rw [hcontains]
    simp [hn]

theorem walk_members_mem (api : ApiDump) :
    ∀ (fuel : Nat) (c : String) (ms : List ApiMember),
      walk_members api c fuel = some ms →
      ∀ m ∈ ms, ∃ cl, cl ∈ api.classes ∧ m ∈ cl.members := by
  intro fuel
  induction fuel with
  | zero => intro c ms h; simp [walk_members] at h
  | succ g ih =>
    intro c ms h
    simp only [walk_members] at h
    split at h
    · simp at h
    · rename_i cl hf
      have hcl : cl ∈ api.classes := List.mem_of_find?_eq_some hf
      split at h
      · simp at h
        intro m hm
        rw [← h] at hm
        exact ⟨cl, hcl, hm⟩
      · cases hw : walk_members api cl.superclass g with
        | none => rw [hw] at h; simp at h
        | some ms2 =>
          rw [hw] at h
          simp at h
          intro m hm
          rw [← h] at hm
          rcases List.mem_append.mp hm with h1 | h2
          · exact ⟨cl, hcl, h1⟩
          · exact ih _ _ hw m h2

theorem last_field_none (n : String) :
    ∀ (ms : List ApiMember),
      (∀ m ∈ ms, ∀ fd, member_field m ≠ some (n, fd)) →
      last_field n ms = none := by
  intro ms
  induction ms with
  | nil => intro _; rfl
  | cons m rest ih =>
    intro h
    rw [last_field_cons, ih (fun m2 h2 => h m2 (List.mem_cons_of_mem _ h2))]
    cases hmf : member_field m with
    | none => rfl
    | some p =>
      obtain ⟨n2, fd⟩ := p
      by_cases h2 : n2 = n
      · subst h2
        exact absurd hmf (h m (List.mem_cons_self _ _) fd)
      · simp [h2]

theorem write_class_struct_new (test : Bool) (api : ApiDump) (s : Structs) (c : String)
    (fuel : Nat) (s2 : Structs)
    (h : write_class_struct test api s c fuel = .ok s2)
    (hc : containsKey c s = false) :
    ∃ g ms, walk_members api c g = some ms ∧
      lookupA c s2 = some (table_after ms table0) := by
  cases fuel with
  | zero => simp [write_class_struct] at h
  | succ g =>
    rw [write_class_struct_succ] at h
    rw [hc] at h
    simp only [Bool.false_eq_true, if_false] at h
    split at h
    · simp at h
    · rename_i s3 table hm
      simp at h
      obtain ⟨ms, hw, hta⟩ := write_class_members_walk _ _ _ _ _ _ _ _ hm
      exact ⟨g, ms, hw, by rw [← h, lookupA_insertA_self, hta]⟩

end SeleneGen

namespace SeleneGen

/-- The struct entries a computation adds beyond a starting state are all
complete walk tables. -/
def NewComplete (api : ApiDump) (sA sB : Structs) : Prop :=
  ∀ k, containsKey k sA = false → ∀ t, lookupA k sB = some t → Complete api k t

theorem new_complete_trans (api : ApiDump) (sA sB sC : Structs)
    (hAB : NewComplete api sA sB) (hBC : NewComplete api sB sC)
    (hpres : ∀ k, containsKey k sB = true → lookupA k sC = lookupA k sB) :
    NewComplete api sA sC := by
  intro k hk t ht
  cases hkB : containsKey k sB with
  | true =>
    rw [hpres k hkB] at ht
    exact hAB k hk t ht
  | false =>
    exact hBC k hkB t ht

theorem write_class_ok (test : Bool) (api : ApiDump) (std : StandardLibrary)
    (g c : String) (fuel : Nat) (out : StandardLibrary)
    (h : write_class test api std g c fuel = .ok out) :
    ∃ s2, write_class_struct test api std.structs c fuel = .ok s2 ∧
      out = { std with
              structs := s2
              globals := insertA g (Field.from_field_kind (.Struct c)) std.globals } := by
  unfold write_class at h
  split at h
  · simp at h
  · rename_i s2 hw
    simp at h
    exact ⟨s2, hw, h.symm⟩

theorem write_get_service_ok (api : ApiDump) (std : StandardLibrary) (out : StandardLibrary)
    (h : write_get_service api std = .ok out) :
    ∃ dm, lookupA "DataModel" std.structs = some dm ∧
      (∃ gs, lookupA "GetService" dm = some gs) ∧
      out = { std with
              structs := insertA "DataModel"
                (insertA "GetService" (get_service_field api) dm) std.structs } := by
  unfold write_get_service at h
  split at h
  · simp at h
  · rename_i dm hdm
    split at h
    · simp at h
    · rename_i gs hgs
      simp at h
      exact ⟨dm, hdm, ⟨gs, hgs⟩, h.symm⟩

theorem pipeline_core_shape (test : Bool) (base_std : StandardLibrary) (api : ApiDump)
    (fuel : Nat) (out : StandardLibrary)
    (h : pipeline_core test base_std api fuel = .ok out) :
    ∃ s4 g4 dm,
      NewComplete api base_std.structs s4 ∧
      lookupA "DataModel" s4 = some dm ∧
      out.globals = insertA "Instance.new" (instance_new_field api)
        (write_enums_go api.enums g4) ∧
      out.structs = insertA "DataModel"
        (insertA "GetService" (get_service_field api) dm) s4 ∧
      out.roblox_classes = write_roblox_classes_go api.classes base_std.roblox_classes := by
  unfold pipeline_core at h
  split at h
  · simp at h
  · rename_i std1 h1
    split at h
    · simp at h
    · rename_i std2 h2
      split at h
      · simp at h
      · rename_i std3 h3
        split at h
        · simp at h
        · rename_i std4 h4
          split at h
          · simp at h
          · rename_i std7 h7
            simp at h
            obtain ⟨s1, hw1, he1⟩ := write_class_ok _ _ _ _ _ _ _ h1
            subst he1
            obtain ⟨s2, hw2, he2⟩ := write_class_ok _ _ _ _ _ _ _ h2
            subst he2
            obtain ⟨s3, hw3, he3⟩ := write_class_ok _ _ _ _ _ _ _ h3
            subst he3
            obtain ⟨s4, hw4, he4⟩ := write_class_ok _ _ _ _ _ _ _ h4
            subst he4
            obtain ⟨dm, hdm, hgs, he7⟩ := write_get_service_ok _ _ _ h7
            subst he7
            have n1 : NewComplete api base_std.structs s1 :=
              fun k hk t ht => (inv_complete fuel test api).1 _ _ _ hw1 k hk t ht
            have n2 : NewComplete api s1 s2 :=
              fun k hk t ht => (inv_complete fuel test api).1 _ _ _ hw2 k hk t ht
            have n3 : NewComplete api s2 s3 :=
              fun k hk t ht => (inv_complete fuel test api).1 _ _ _ hw3 k hk t ht
            have n4 : NewComplete api s3 s4 :=
              fun k hk t ht => (inv_complete fuel test api).1 _ _ _ hw4 k hk t ht
            have p2 : ∀ k, containsKey k s1 = true → lookupA k s2 = lookupA k s1 :=
              fun k hk => (pres_existing fuel test api).1 _ _ _ hw2 k hk
            have p3 : ∀ k, containsKey k s2 = true → lookupA k s3 = lookupA k s2 :=
              fun k hk => (pres_existing fuel test api).1 _ _ _ hw3 k hk
            have p4 : ∀ k, containsKey k s3 = true → lookupA k s4 = lookupA k s3 :=
              fun k hk => (pres_existing fuel test api).1 _ _ _ hw4 k hk
            have n12 := new_complete_trans api _ _ _ n1 n2 p2
            have n13 := new_complete_trans api _ _ _ n12 n3 p3
            have n14 := new_complete_trans api _ _ _ n13 n4 p4
            rw [← h]
            exact ⟨s4,
              insertA "workspace" (Field.from_field_kind (.Struct "Workspace"))
                (insertA "script" (Field.from_field_kind (.Struct "Script"))
                  (insertA "plugin" (Field.from_field_kind (.Struct "Plugin"))
                    (insertA "game" (Field.from_field_kind (.Struct "DataModel"))
                      base_std.globals))),
              dm, n14, hdm, rfl, rfl, rfl⟩

end SeleneGen

namespace SeleneGen

/-- Whether a member emits a field under the wildcard name. -/
def member_emits_star (m : ApiMember) : Bool :=
  match member_field m with
  | some (n, _) => n == "*"
  | none => false

theorem complete_star (api : ApiDump) (k : String) (t : Stbl) (hc : Complete api k t) :
    containsKey "*" t = true ∧
    ((∀ cl ∈ api.classes, ∀ m ∈ cl.members, member_emits_star m = false) →
      lookupA "*" t = some (Field.from_field_kind (.Struct "Instance"))) := by
  obtain ⟨g, ms, hw, hta⟩ := hc
  subst hta
  constructor
  · apply containsKey_table_after
    decide
  · intro hstar
    rw [lookupA_table_after]
    have hnone : last_field "*" ms = none := by
      apply last_field_none
      intro m hm fd hmf
      obtain ⟨cl, hcl, hmcl⟩ := walk_members_mem api g k ms hw m hm
      have hms := hstar cl hcl m hmcl
      rw [member_emits_star, hmf] at hms
      simp at hms
    rw [hnone]
    decide

/-- C1 (amended): when `write_class_struct` finishes, the member table it
stores for each newly synthesized class is the fresh wildcard-seeded table
updated by the emitted field of every member along the walk order (the
class itself, then each ancestor up to the root); under each name the
stored field is the one derived from the LAST member of that walk order
that emits a field under the name, so on a collision between the class and
an ancestor the entry derived from the ancestor (processed later) wins,
and every walk member that emits a field has an entry under its name. -/
theorem c1_inheritance_flattening (test : Bool) (api : ApiDump) (s : Structs) (c : String)
    (fuel : Nat) (s2 : Structs)
    (h : write_class_struct test api s c fuel = .ok s2)
    (k : String) (hk : containsKey k s = false) (t : Stbl) (ht : lookupA k s2 = some t) :
    ∃ g ms, walk_members api k g = some ms ∧
      (∀ n, lookupA n t =
        match last_field n ms with
        | some fd => some fd
        | none => lookupA n table0) ∧
      (∀ n fd, last_field n ms = some fd → lookupA n t = some fd) := by
  have hcomp : Complete api k t := (inv_complete fuel test api).1 _ _ _ h k hk t ht
  obtain ⟨g, ms, hw, hta⟩ := hcomp
  subst hta
  refine ⟨g, ms, hw, fun n => lookupA_table_after n ms table0, ?_⟩
  intro n fd hlast
  rw [lookupA_table_after, hlast]

/-- C2: after the pipeline finishes, the global `Instance.new` is a
non-method must-use function with exactly one required argument whose
constant set is exactly the names of the classes not tagged NotCreatable,
and the `GetService` entry of the DataModel struct is a method must-use
function with exactly one required argument whose constant set is exactly
the names of the classes tagged Service. -/
theorem c2_constructor_constants (test : Bool) (base_std : StandardLibrary) (api : ApiDump)
    (fuel : Nat) (out : StandardLibrary)
    (h : pipeline_core test base_std api fuel = .ok out) :
    (lookupA "Instance.new" out.globals = some
       { field_kind := FieldKind.Function
           { arguments := [{ argument_type := ArgumentType.Constant (instance_names api)
                             required := Required.Required none
                             observes := Observes.ReadWrite }]
             method := false
             must_use := true }
         deprecated := none } ∧
     ∀ n, n ∈ instance_names api ↔
       ∃ cl, cl ∈ api.classes ∧ cl.name = n ∧ cl.tags.contains "NotCreatable" = false) ∧
    (∃ dm, lookupA "DataModel" out.structs = some dm ∧
      lookupA "GetService" dm = some
        { field_kind := FieldKind.Function
            { arguments := [{ argument_type := ArgumentType.Constant (service_names api)
                              required := Required.Required none
                              observes := Observes.ReadWrite }]
              method := true
              must_use := true }
          deprecated := none } ∧
      ∀ n, n ∈ service_names api ↔
        ∃ cl, cl ∈ api.classes ∧ cl.name = n ∧ cl.tags.contains "Service" = true) := by
  obtain ⟨s4, g4, dm, hnc, hdm, hg, hs, hrc⟩ := pipeline_core_shape _ _ _ _ _ h
  refine ⟨⟨?_, mem_instance_names api⟩, ?_⟩
  · rw [hg, lookupA_insertA_self]
    rfl
  · refine ⟨insertA "GetService" (get_service_field api) dm, ?_, ?_, mem_service_names api⟩
    · rw [hs, lookupA_insertA_self]
    · rw [lookupA_insertA_self]
      rfl

/-- C4: `write_class_struct` is idempotent on a class that already has a
struct entry, and, for a dump whose superclass chains all stop (the
data-model invariant of the spec) in which some class has a property whose
value type is that same class, synthesis terminates (the fuel model never
needs unbounded fuel) and any completed synthesis of a fresh class stores
the fully populated walk table for it exactly once. -/
theorem c4_idempotent_cycle_safe (test : Bool) (api : ApiDump) (s : Structs) (c : String)
    (fuel : Nat) :
    (containsKey c s = true → write_class_struct test api s c (fuel + 1) = .ok s) ∧
    ((∀ n, ChainOk api n) →
     (∃ cl, cl ∈ api.classes ∧ ∃ nm tags,
        ApiMember.Property nm tags ApiPropertySecurity.default
          (ApiValueType.Class cl.name) ∈ cl.members) →
     (∃ f, write_class_struct test api s c f ≠ .error .fuel) ∧
     (∀ f s2, write_class_struct test api s c f = .ok s2 → containsKey c s = false →
        ∃ g ms, walk_members api c g = some ms ∧
          lookupA c s2 = some (table_after ms table0))) := by
  constructor
  · intro hc
    rw [write_class_struct_succ]
    simp [hc]
  · intro hchain _hself
    refine ⟨(terminates_master api hchain (undone api s) s (Nat.le_refl _)).1 test c, ?_⟩
    intro f s2 h2 hc
    exact write_class_struct_new test api s c f s2 h2 hc

/-- C5 (amended): every struct the pipeline adds beyond the baseline has a
wildcard entry, and that entry equals `Struct("Instance")` provided no
walked member emits a field under the wildcard name (a member literally
named `*` would overwrite the seeded wildcard entry). -/
theorem c5_wildcard_amended (test : Bool) (base_std : StandardLibrary) (api : ApiDump)
    (fuel : Nat) (out : StandardLibrary)
    (h : pipeline_core test base_std api fuel = .ok out)
    (k : String) (hk : containsKey k base_std.structs = false)
    (t : Stbl) (ht : lookupA k out.structs = some t) :
    containsKey "*" t = true ∧
    ((∀ cl ∈ api.classes, ∀ m ∈ cl.members, member_emits_star m = false) →
      lookupA "*" t = some (Field.from_field_kind (.Struct "Instance"))) := by
  obtain ⟨s4, g4, dm, hnc, hdm, hg, hs, hrc⟩ := pipeline_core_shape _ _ _ _ _ h
  rw [hs] at ht
  by_cases hkd : k = "DataModel"
  · subst hkd
    rw [lookupA_insertA_self] at ht
    have hcomp : Complete api "DataModel" dm := hnc "DataModel" hk dm hdm
    obtain ⟨hcs, hlk⟩ := complete_star api "DataModel" dm hcomp
    injection ht with ht2
    constructor
    · rw [← ht2, containsKey_insertA, hcs]
      simp
    · intro hstar
      rw [← ht2, lookupA_insertA_ne _ _ _ _ (by decide)]
      exact hlk hstar
  · have hdk : "DataModel" ≠ k := fun e => hkd e.symm
    rw [lookupA_insertA_ne _ _ _ _ hdk] at ht
    exact complete_star api k t (hnc k hk t ht)

/-- C6: a property member whose security differs from the default emits no
field in member classification, synthesizes no struct, and contributes
nothing to the member loop. -/
theorem c6_security_filter (n : String) (tags : Option (List String))
    (sec : ApiPropertySecurity) (vt : ApiValueType)
    (hsec : sec ≠ ApiPropertySecurity.default) :
    member_field (ApiMember.Property n tags sec vt) = none ∧
    member_class_ref (ApiMember.Property n tags sec vt) = none ∧
    (∀ test api s t c rest fuel,
       members_loop test api s t c (ApiMember.Property n tags sec vt :: rest) (fuel + 1) =
         members_loop test api s t c rest fuel) := by
  have hmf : member_field (ApiMember.Property n tags sec vt) = none := by
    simp [member_field, classify_member, hsec]
  have hcr : member_class_ref (ApiMember.Property n tags sec vt) = none := by
    cases vt <;> simp [member_class_ref, hsec]
  refine ⟨hmf, hcr, ?_⟩
  intro test api s t c rest fuel
  rw [members_loop_cons_not_unknown _ _ _ _ _ _ _ _ (by simp)]
  simp [hcr, hmf]

theorem classify_member_no_deprecated (m : ApiMember) (n : String) (f0 : Field)
    (h : classify_member m = some (n, some f0)) : f0.deprecated = none := by
  cases m with
  | Callback name tags =>
    simp [classify_member] at h
    rw [← h.2]
    rfl
  | Event name tags =>
    simp [classify_member] at h
    rw [← h.2]
    rfl
  | Function name tags parameters =>
    simp [classify_member] at h
    rw [← h.2]
    rfl
  | Unknown => simp [classify_member] at h
  | Property name tags sec vt =>
    simp only [classify_member, Option.some.injEq, Prod.mk.injEq] at h
    obtain ⟨hn, hf⟩ := h
    by_cases hsec : sec = ApiPropertySecurity.default
    · rw [if_pos hsec] at hf
      cases vt with
      | Class n2 =>
        simp at hf
        subst hf
        rfl
      | DataType v =>
        by_cases hm : v.has_custom_methods = true
        · simp [hm] at hf
          subst hf
          rfl
        · simp [hm] at hf
          subst hf
          rfl
      | Other =>
        simp at hf
        subst hf
        rfl
    · rw [if_neg hsec] at hf
      simp at hf

/-- C7: every field emitted by member classification carries the fixed
deprecation record exactly when the tag list of its source member contains
the tag, and carries none otherwise. -/
theorem c7_deprecation (m : ApiMember) (n : String) (f : Field)
    (h : member_field m = some (n, f)) :
    (((member_tags m).getD []).contains "Deprecated" = true →
       f.deprecated = some { message := "this property is deprecated.", replace := [] }) ∧
    (((member_tags m).getD []).contains "Deprecated" = false → f.deprecated = none) := by
  unfold member_field at h
  cases hc : classify_member m with
  | none => rw [hc] at h; simp at h
  | some p =>
    obtain ⟨n2, fopt⟩ := p
    rw [hc] at h
    cases fopt with
    | none => simp at h
    | some f0 =>
      simp at h
      obtain ⟨hn, hf⟩ := h
      have hdep : f0.deprecated = none := classify_member_no_deprecated m n2 f0 hc
      constructor
      · intro hcon
        rw [← hf]
        unfold apply_deprecated
        rw [hcon]
        simp
      · intro hcon
        rw [← hf]
        unfold apply_deprecated
        rw [hcon]
        simpa using hdep

/-- C8: when the member loop reaches an `Unknown` member, the test
configuration aborts with a panic whose message contains the class name,
and the non-test configuration skips the member and continues with the
remaining members. -/
theorem c8_unknown_member (test : Bool) (api : ApiDump) (s : Structs) (t : Stbl)
    (c : String) (rest : List ApiMember) (fuel : Nat) :
    (test = true →
       members_loop test api s t c (ApiMember.Unknown :: rest) (fuel + 1) =
         .error (.panicked ("unknown property found in Roblox API dump for " ++ c)) ∧
       ∃ a, ("unknown property found in Roblox API dump for " ++ c) = a ++ c) ∧
    (test = false →
       members_loop test api s t c (ApiMember.Unknown :: rest) (fuel + 1) =
         members_loop test api s t c rest fuel) := by
  constructor
  · intro ht
    subst ht
    exact ⟨rfl, ⟨"unknown property found in Roblox API dump for ", rfl⟩⟩
  · intro ht
    subst ht
    rfl

/-- C9: the enum writer binds the `GetEnumItems` function global of each
enum before the per-item globals of the same enum, and insertion
overwrites, so for an enum containing an item literally named
`GetEnumItems` (and no later enum binding colliding with that key) the
final global is `Struct("EnumItem")` rather than the function field. -/
theorem c9_enum_item_shadow (test : Bool) (base_std : StandardLibrary) (api : ApiDump)
    (fuel : Nat) (out : StandardLibrary) (e : ApiEnum) (pre post : List ApiEnum)
    (h : pipeline_core test base_std api fuel = .ok out)
    (hsplit : api.enums = pre ++ e :: post)
    (hit : ∃ it, it ∈ e.items ∧ it.name = "GetEnumItems")
    (hpost : ∀ e2 ∈ post, enum_fn_key e2.name ≠ enum_fn_key e.name ∧
       ∀ it ∈ e2.items, enum_item_key e2.name it.name ≠ enum_fn_key e.name) :
    lookupA (enum_fn_key e.name) out.globals = some enum_item_field := by
  obtain ⟨s4, g4, dm, hnc, hdm, hg, hs, hrc⟩ := pipeline_core_shape _ _ _ _ _ h
  rw [hg, lookupA_insertA_ne _ _ _ _ (Ne.symm (enum_fn_key_ne_instance_new e.name)),
    hsplit, write_enums_go_append, write_enums_go,
    write_enums_go_preserve _ post _ hpost]
  apply write_enum_items_sets
  obtain ⟨it, hmem, hname⟩ := hit
  refine ⟨it, hmem, ?_⟩
  rw [hname, enum_item_key_fn]

/-- C10: the class index stores, for each class whose name no later class
reuses, its superclass together with the names of its Event members and of
ALL of its Property members in dump order, regardless of security or tags,
so a property dropped by the security filter still appears in the index. -/
theorem c10_class_index (test : Bool) (base_std : StandardLibrary) (api : ApiDump)
    (fuel : Nat) (out : StandardLibrary) (cl : ApiClass) (pre post : List ApiClass)
    (h : pipeline_core test base_std api fuel = .ok out)
    (hsplit : api.classes = pre ++ cl :: post)
    (hpost : ∀ cl2 ∈ post, cl2.name ≠ cl.name) :
    ∃ rc, lookupA cl.name out.roblox_classes = some rc ∧
      rc.superclass = cl.superclass ∧
      rc.events = class_events cl ∧
      rc.properties = class_properties cl ∧
      (∀ n tags sec vt, ApiMember.Property n tags sec vt ∈ cl.members →
        n ∈ rc.properties) := by
  obtain ⟨s4, g4, dm, hnc, hdm, hg, hs, hrc⟩ := pipeline_core_shape _ _ _ _ _ h
  refine ⟨{ superclass := cl.superclass
            events := class_events cl
            properties := class_properties cl }, ?_, rfl, rfl, rfl, ?_⟩
  · rw [hrc, hsplit, write_roblox_classes_go_append, write_roblox_classes_go,
      write_roblox_classes_go_preserve _ post _ hpost, lookupA_insertA_self]
  · intro n tags sec vt hmem
    rw [class_properties, List.mem_filterMap]
    exact ⟨ApiMember.Property n tags sec vt, hmem, rfl⟩

end SeleneGen

namespace SeleneGen

/-- C3 (amended): two runs of generation on the same dump, baseline and
generator version produce identical output lines except for the header
comment line and the `last_updated` line of the YAML body, which both carry
the run timestamp (the descriptor itself is stamped with the timestamp
before serialization, so the body is not byte-identical across runs). -/
theorem c3_determinism_amended (test : Bool) (base_std : StandardLibrary) (api : ApiDump)
    (t1 t2 : Int) (ver : String) (fuel : Nat)
    (out1 out2 : List String × StandardLibrary)
    (h1 : start_generation test base_std api t1 ver fuel = .ok out1)
    (h2 : start_generation test base_std api t2 ver fuel = .ok out2) :
    ∃ A B, out1.1 = header_line t1 :: (A ++ ("last_updated: " ++ toString t1) :: B) ∧
           out2.1 = header_line t2 :: (A ++ ("last_updated: " ++ toString t2) :: B) := by
  unfold start_generation at h1 h2
  split at h1
  · simp at h1
  · rename_i std0 hp
    simp only [hp] at h2
    simp at h1 h2
    refine ⟨yaml_pre (stamp std0 t1 ver), yaml_post (stamp std0 t1 ver), ?_, ?_⟩
    · rw [← h1]
      rfl
    · rw [← h2]
      rfl

end SeleneGen

namespace SeleneGen

/-- A small baseline descriptor for the concrete examples. -/
def demoBase : StandardLibrary :=
  { base := some "roblox"
    globals := []
    structs := []
    roblox_classes := []
    last_updated := none
    last_selene_version := none }

def dmClass : ApiClass :=
  { name := "DataModel", superclass := "<<<ROOT>>>", tags := ["NotCreatable", "Service"]
    members := [ .Function "GetService" none [()] ] }

def pluginClass : ApiClass :=
  { name := "Plugin", superclass := "<<<ROOT>>>", tags := ["NotCreatable"], members := [] }

def scriptClass : ApiClass :=
  { name := "Script", superclass := "<<<ROOT>>>", tags := [], members := [] }

def wsClass : ApiClass :=
  { name := "Workspace", superclass := "<<<ROOT>>>", tags := ["Service"], members := [] }

def partClass : ApiClass :=
  { name := "Part", superclass := "<<<ROOT>>>", tags := []
    members := [ .Property "Anchored" none ApiPropertySecurity.default .Other,
                 .Property "Hidden" none { read := "PluginSecurity", write := "None" } .Other ] }

def styleEnum : ApiEnum :=
  { name := "Style", items := [ { name := "GetEnumItems" }, { name := "A" } ] }

/-- A small well-formed API dump on which the whole pipeline succeeds. -/
def demoApi : ApiDump :=
  { classes := [dmClass, pluginClass, scriptClass, wsClass, partClass]
    enums := [styleEnum] }

/-- A dump in which a child class and its parent both declare a member of
the same name with different projections. -/
def ovApi : ApiDump :=
  { classes :=
      [ { name := "Child", superclass := "Parent", tags := []
          members := [ .Property "M" none ApiPropertySecurity.default .Other ] }
      , { name := "Parent", superclass := "<<<ROOT>>>", tags := []
          members := [ .Property "M" (some ["ReadOnly"]) ApiPropertySecurity.default .Other ] } ]
    enums := [] }

/-- A dump in which a walked class declares a member literally named `*`. -/
def starApi : ApiDump :=
  { classes :=
      [ dmClass, pluginClass, scriptClass
      , { name := "Workspace", superclass := "<<<ROOT>>>", tags := ["Service"]
          members := [ .Event "*" none ] } ]
    enums := [] }

def selfClass : ApiClass :=
  { name := "A", superclass := "<<<ROOT>>>", tags := []
    members := [ .Property "P" none ApiPropertySecurity.default (.Class "A") ] }

/-- A dump with a class whose property value type is the class itself. -/
def selfApi : ApiDump := { classes := [selfClass], enums := [] }

theorem selfApi_chain : ∀ n, ChainOk selfApi n := by
  intro n
  by_cases h : n = "A"
  · subst h
    exact ChainOk.root "A" selfClass rfl rfl
  · refine ChainOk.missing n ?_
    rw [List.find?_eq_none]
    intro cl hcl
    have hcl2 : cl = selfClass := by simpa [selfApi] using hcl
    subst hcl2
    simp only [beq_iff_eq]
    intro he
    exact h he.symm

/-- C1 counterexample: in `ovApi`, the member classification of the child
member `M` is a writable property, but the finished struct table for
`Child` stores the read-only field derived from the parent member of the
same name: the parent, walked after the child, overwrites the child entry,
so the claim that the child entry wins is false on this input. -/
theorem c1_counterexample :
    member_field (ApiMember.Property "M" none ApiPropertySecurity.default .Other) =
      some ("M", { field_kind := .Property .OverrideFields, deprecated := none }) ∧
    ((write_class_struct false ovApi [] "Child" 10).toOption.bind (lookupA "Child")
        |>.bind (lookupA "M")) =
      some { field_kind := .Property .ReadOnly, deprecated := none } ∧
    ({ field_kind := FieldKind.Property .ReadOnly, deprecated := none } : Field) ≠
      { field_kind := .Property .OverrideFields, deprecated := none } := by
  decide

theorem c1_witness :
    ∃ s2 t, write_class_struct false ovApi [] "Child" 10 = .ok s2 ∧
      containsKey "Child" ([] : Structs) = false ∧
      lookupA "Child" s2 = some t ∧
      ∃ g ms, walk_members ovApi "Child" g = some ms ∧
        lookupA "M" t = (match last_field "M" ms with
                         | some fd => some fd
                         | none => lookupA "M" table0) := by
  cases h : write_class_struct false ovApi [] "Child" 10 with
  | error e =>
    exfalso
    have hok : (write_class_struct false ovApi [] "Child" 10).toOption.isSome = true := by
      decide
    rw [h] at hok
    simp [Except.toOption] at hok
  | ok s2 =>
    cases ht : lookupA "Child" s2 with
    | none =>
      exfalso
      have hlk : ((write_class_struct false ovApi [] "Child" 10).toOption.bind
          (lookupA "Child")).isSome = true := by decide
      rw [h] at hlk
      simp [Except.toOption] at hlk
      rw [ht] at hlk
      simp at hlk
    | some t =>
      obtain ⟨g, ms, hw, hchar, _⟩ :=
        c1_inheritance_flattening false ovApi [] "Child" 10 s2 h "Child" rfl t ht
      exact ⟨s2, t, rfl, rfl, ht, g, ms, hw, hchar "M"⟩

end SeleneGen

namespace SeleneGen

theorem c2_witness :
    ∃ out, pipeline_core false demoBase demoApi 16 = .ok out ∧
      lookupA "Instance.new" out.globals = some
        { field_kind := FieldKind.Function
            { arguments := [{ argument_type := ArgumentType.Constant (instance_names demoApi)
                              required := Required.Required none
                              observes := Observes.ReadWrite }]
              method := false
              must_use := true }
          deprecated := none } ∧
      ∃ dm, lookupA "DataModel" out.structs = some dm ∧
        lookupA "GetService" dm = some
          { field_kind := FieldKind.Function
              { arguments := [{ argument_type := ArgumentType.Constant (service_names demoApi)
                                required := Required.Required none
                                observes := Observes.ReadWrite }]
                method := true
                must_use := true }
            deprecated := none } := by
  cases h : pipeline_core false demoBase demoApi 16 with
  | error e =>
    exfalso
    have hok : (pipeline_core false demoBase demoApi 16).toOption.isSome = true := by decide
    rw [h] at hok
    simp [Except.toOption] at hok
  | ok out =>
    obtain ⟨⟨hin, _⟩, dm, hdm, hgs, _⟩ := c2_constructor_constants false demoBase demoApi 16 out h
    exact ⟨out, rfl, hin, dm, hdm, hgs⟩

/-- C3 counterexample: on a concrete dump both runs succeed, yet the lines
after the header comment line differ between a run at timestamp 0 and a
run at timestamp 1 (the `last_updated` line of the YAML body carries the
timestamp), so the output bytes after the header are not identical. -/
theorem c3_counterexample :
    (start_generation false demoBase demoApi 0 "0.15.0" 16).toOption.isSome = true ∧
    (start_generation false demoBase demoApi 1 "0.15.0" 16).toOption.isSome = true ∧
    ((start_generation false demoBase demoApi 0 "0.15.0" 16).toOption.map
        (fun p => p.1.drop 1)) ≠
      ((start_generation false demoBase demoApi 1 "0.15.0" 16).toOption.map
        (fun p => p.1.drop 1)) := by
  decide

theorem c3_witness :
    ∃ out1 out2 A B,
      start_generation false demoBase demoApi 0 "0.15.0" 16 = .ok out1 ∧
      start_generation false demoBase demoApi 1 "0.15.0" 16 = .ok out2 ∧
      out1.1 = header_line 0 :: (A ++ ("last_updated: " ++ toString (0 : Int)) :: B) ∧
      out2.1 = header_line 1 :: (A ++ ("last_updated: " ++ toString (1 : Int)) :: B) := by
  cases h1 : start_generation false demoBase demoApi 0 "0.15.0" 16 with
  | error e =>
    exfalso
    have hok : (start_generation false demoBase demoApi 0 "0.15.0" 16).toOption.isSome = true := by
      decide
    rw [h1] at hok
    simp [Except.toOption] at hok
  | ok out1 =>
    cases h2 : start_generation false demoBase demoApi 1 "0.15.0" 16 with
    | error e =>
      exfalso
      have hok : (start_generation false demoBase demoApi 1 "0.15.0" 16).toOption.isSome = true := by
        decide
      rw [h2] at hok
      simp [Except.toOption] at hok
    | ok out2 =>
      obtain ⟨A, B, hA, hB⟩ :=
        c3_determinism_amended false demoBase demoApi 0 1 "0.15.0" 16 out1 out2 h1 h2
      exact ⟨out1, out2, A, B, rfl, rfl, hA, hB⟩

theorem c4_witness :
    write_class_struct false selfApi [("A", [])] "A" (4 + 1) = .ok [("A", [])] ∧
    (∃ f, write_class_struct false selfApi [] "A" f ≠ .error .fuel) ∧
    (∃ s2, write_class_struct false selfApi [] "A" 5 = .ok s2 ∧
      ∃ g ms, walk_members selfApi "A" g = some ms ∧
        lookupA "A" s2 = some (table_after ms table0)) := by
  refine ⟨?_, ?_, ?_⟩
  · exact (c4_idempotent_cycle_safe false selfApi [("A", [])] "A" 4).1 (by decide)
  · exact ((c4_idempotent_cycle_safe false selfApi [] "A" 0).2 selfApi_chain
      ⟨selfClass, by decide, "P", none, by decide⟩).1
  · cases hw : write_class_struct false selfApi [] "A" 5 with
    | error e =>
      exfalso
      have hok : (write_class_struct false selfApi [] "A" 5).toOption.isSome = true := by decide
      rw [hw] at hok
      simp [Except.toOption] at hok
    | ok s2 =>
      exact ⟨s2, rfl, ((c4_idempotent_cycle_safe false selfApi [] "A" 0).2 selfApi_chain
        ⟨selfClass, by decide, "P", none, by decide⟩).2 5 s2 hw rfl⟩

/-- C5 counterexample: on a dump whose `Workspace` class has a member
literally named `*`, the pipeline succeeds and the synthesized `Workspace`
struct stores `Struct("Event")` under the wildcard key, not
`Struct("Instance")`: a walked member named `*` overwrites the seeded
wildcard entry, so the claim is false as stated. -/
theorem c5_counterexample :
    ((pipeline_core false demoBase starApi 16).toOption.map
        (fun out => (lookupA "Workspace" out.structs).bind (lookupA "*"))) =
      some (some (Field.from_field_kind (.Struct "Event"))) ∧
    Field.from_field_kind (FieldKind.Struct "Event") ≠
      Field.from_field_kind (.Struct "Instance") := by
  decide

theorem c5_witness :
    ∃ out t, pipeline_core false demoBase demoApi 16 = .ok out ∧
      lookupA "Workspace" out.structs = some t ∧
      containsKey "*" t = true ∧
      lookupA "*" t = some (Field.from_field_kind (.Struct "Instance")) := by
  cases h : pipeline_core false demoBase demoApi 16 with
  | error e =>
    exfalso
    have hok : (pipeline_core false demoBase demoApi 16).toOption.isSome = true := by decide
    rw [h] at hok
    simp [Except.toOption] at hok
  | ok out =>
    cases ht : lookupA "Workspace" out.structs with
    | none =>
      exfalso
      have hlk : ((pipeline_core false demoBase demoApi 16).toOption.bind
          (fun o => lookupA "Workspace" o.structs)).isSome = true := by decide
      rw [h] at hlk
      simp [Except.toOption] at hlk
      rw [ht] at hlk
      simp at hlk
    | some t =>
      have hc := c5_wildcard_amended false demoBase demoApi 16 out h "Workspace" rfl t ht
      exact ⟨out, t, rfl, ht, hc.1, hc.2 (by decide)⟩

theorem c6_witness :
    ({ read := "PluginSecurity", write := "None" } : ApiPropertySecurity) ≠
      ApiPropertySecurity.default ∧
    member_field (ApiMember.Property "Hidden" none
      { read := "PluginSecurity", write := "None" } .Other) = none := by
  refine ⟨by decide, ?_⟩
  exact (c6_security_filter "Hidden" none _ .Other (by decide)).1

theorem c7_witness :
    member_field (ApiMember.Property "Bar" (some ["Deprecated"])
        ApiPropertySecurity.default .Other) =
      some ("Bar", { field_kind := .Property .OverrideFields
                     deprecated := some { message := "this property is deprecated.", replace := [] } }) ∧
    ({ field_kind := FieldKind.Property .OverrideFields
       deprecated := some { message := "this property is deprecated.", replace := [] } } : Field).deprecated =
      some { message := "this property is deprecated.", replace := [] } := by
  refine ⟨by decide, ?_⟩
  exact (c7_deprecation (ApiMember.Property "Bar" (some ["Deprecated"])
    ApiPropertySecurity.default .Other) "Bar" _ (by decide)).1 (by decide)

theorem c8_witness :
    members_loop true demoApi [] [] "Foo" (ApiMember.Unknown :: []) (3 + 1) =
      .error (.panicked ("unknown property found in Roblox API dump for " ++ "Foo")) ∧
    members_loop false demoApi [] [] "Foo" (ApiMember.Unknown :: []) (3 + 1) =
      members_loop false demoApi [] [] "Foo" [] 3 := by
  exact ⟨((c8_unknown_member true demoApi [] [] "Foo" [] 3).1 rfl).1,
    (c8_unknown_member false demoApi [] [] "Foo" [] 3).2 rfl⟩

theorem c9_witness :
    ∃ out, pipeline_core false demoBase demoApi 16 = .ok out ∧
      lookupA (enum_fn_key "Style") out.globals = some enum_item_field := by
  cases h : pipeline_core false demoBase demoApi 16 with
  | error e =>
    exfalso
    have hok : (pipeline_core false demoBase demoApi 16).toOption.isSome = true := by decide
    rw [h] at hok
    simp [Except.toOption] at hok
  | ok out =>
    refine ⟨out, rfl, ?_⟩
    have hres := c9_enum_item_shadow false demoBase demoApi 16 out styleEnum [] [] h rfl
      ⟨{ name := "GetEnumItems" }, by decide, rfl⟩
      (by intro e2 he2; cases he2)
    exact hres

theorem c10_witness :
    ∃ out rc, pipeline_core false demoBase demoApi 16 = .ok out ∧
      lookupA partClass.name out.roblox_classes = some rc ∧
      rc.properties = class_properties partClass ∧
      "Hidden" ∈ rc.properties := by
  cases h : pipeline_core false demoBase demoApi 16 with
  | error e =>
    exfalso
    have hok : (pipeline_core false demoBase demoApi 16).toOption.isSome = true := by decide
    rw [h] at hok
    simp [Except.toOption] at hok
  | ok out =>
    obtain ⟨rc, hrc, _, _, hprops, hmem⟩ :=
      c10_class_index false demoBase demoApi 16 out partClass
        [dmClass, pluginClass, scriptClass, wsClass] [] h rfl
        (by intro cl2 hcl2; cases hcl2)
    refine ⟨out, rc, rfl, hrc, hprops, ?_⟩
    exact hmem "Hidden" none { read := "PluginSecurity", write := "None" } .Other (by decide)

end SeleneGen
